import Mathlib

/-!
Verification of the Alpenglow Stateright models (solana-alpenglow repository).

Each Rust model (certificate.rs, safety.rs, liveness.rs, votor.rs, timeout.rs,
leader.rs) is shallowly embedded: BTreeSet fields become Finset, BTreeMap fields
become functions to Option (or Finset of keys when the map only records key
presence and is iterated), Vec of validator states becomes List, and the
Stateright next_state functions become Option-returning Lean functions that
mirror the Rust arm by arm, including the places where the Rust code reads the
stale validators vector of the cloned next_state.
-/

set_option maxHeartbeats 1000000

namespace Cert

/-- Total stake constant of certificate.rs. -/
def TOTAL_STAKE : Nat := 1000

/-- Notarization threshold percent of certificate.rs. -/
def NOTARIZE_THRESHOLD_PERCENT : Nat := 60

/-- CertificateMessage of certificate.rs. -/
inductive CertificateMessage where
  | notarVote (slot hash voter : Nat)
  | skipVote (slot voter : Nat)
  | blockCertificate (slot hash stake : Nat)
  | skipCertificate (slot stake : Nat)
deriving DecidableEq

/-- MessageInTransit of certificate.rs. -/
structure MessageInTransit where
  dst : Nat
  msg : CertificateMessage
deriving DecidableEq

/-- CertificateAction of certificate.rs. -/
inductive CertificateAction where
  | castNotarVote (slot hash voter : Nat)
  | castSkipVote (slot voter : Nat)
  | deliverMessage (e : MessageInTransit)
  | adversaryEquivocate (slot hash1 hash2 adversary : Nat)
deriving DecidableEq

/-- ValidatorState of certificate.rs.  votes_cast is a BTreeMap whose values are
always true, so it is embedded as the Finset of its keys; vote_pool and the
certificates set are embedded pointwise. -/
structure ValidatorState where
  votes_cast : Finset (Nat × Option Nat)
  vote_pool : Nat × Option Nat → Option (Finset Nat)
  certificates : Nat × Option Nat → Bool
  is_adversary : Bool
  stake : Nat

instance : Inhabited ValidatorState :=
  ⟨{ votes_cast := ∅, vote_pool := fun _ => none, certificates := fun _ => false,
     is_adversary := false, stake := 0 }⟩

/-- CertificateState of certificate.rs. -/
structure CertificateState where
  network : Finset MessageInTransit
  validators : List ValidatorState
  global_certificates : Nat × Option Nat → Option Nat
  stake_distribution : Nat → Option Nat

/-- CertificateModel of certificate.rs. -/
structure CertificateModel where
  validator_count : Nat
  max_slot : Nat
  adversary_count : Nat

/-- Indexing validators, defaulting out of range (reachable states only index in
range, where the Rust Vec indexing is defined). -/
def CertificateState.vAt (s : CertificateState) (i : Nat) : ValidatorState :=
  s.validators.getD i default

/-- CertificateState::new. -/
def initState (validator_count adversary_count : Nat) : CertificateState :=
  let stake_per_validator := TOTAL_STAKE / validator_count
  { network := ∅
    validators := (List.range validator_count).map (fun i =>
      { votes_cast := ∅
        vote_pool := fun _ => none
        certificates := fun _ => false
        is_adversary := decide (i < adversary_count)
        stake := stake_per_validator })
    global_certificates := fun _ => none
    stake_distribution := fun i =>
      if i < validator_count then some stake_per_validator else none }

/-- CertificateState::get_stake_for_voters: voters absent from the stake map
contribute nothing (filter_map over get). -/
def get_stake_for_voters (s : CertificateState) (voters : Finset Nat) : Nat :=
  Finset.sum voters (fun v => (s.stake_distribution v).getD 0)

/-- CertificateState::can_form_certificate: reads the vote pool of validator 0
only. -/
def can_form_certificate (s : CertificateState) (slot : Nat) (hash : Option Nat) : Bool :=
  match (s.vAt 0).vote_pool (slot, hash) with
  | some voters =>
      decide (TOTAL_STAKE * NOTARIZE_THRESHOLD_PERCENT / 100 ≤ get_stake_for_voters s voters)
  | none => false

/-- Broadcast of a message to destinations 0..n, as done by the for loops of
certificate.rs. -/
def broadcast (n : Nat) (msg : CertificateMessage) (net : Finset MessageInTransit) :
    Finset MessageInTransit :=
  net ∪ (Finset.range n).image (fun i => ⟨i, msg⟩)

/-- CertificateModel::next_state.  In the no-op branches the Rust code writes the
unchanged cloned validator back, leaving the state equal to the input. -/
def next (m : CertificateModel) (s : CertificateState) (a : CertificateAction) :
    Option CertificateState :=
  match a with
  | .castNotarVote slot hash voter =>
      let v := s.vAt voter
      if ∃ k ∈ v.votes_cast, k.1 = slot then some s
      else
        let v2 := { v with votes_cast := insert (slot, some hash) v.votes_cast }
        some { s with
          network := broadcast m.validator_count (.notarVote slot hash voter) s.network
          validators := s.validators.set voter v2 }
  | .castSkipVote slot voter =>
      let v := s.vAt voter
      if ∃ k ∈ v.votes_cast, k.1 = slot then some s
      else
        let v2 := { v with votes_cast := insert (slot, none) v.votes_cast }
        some { s with
          network := broadcast m.validator_count (.skipVote slot voter) s.network
          validators := s.validators.set voter v2 }
  | .deliverMessage e =>
      if e ∈ s.network then
        let s1 := { s with network := s.network.erase e }
        let v := s.vAt e.dst
        match e.msg with
        | .notarVote slot hash voter =>
            let voters2 := insert voter ((v.vote_pool (slot, some hash)).getD ∅)
            let v2 := { v with vote_pool := fun k =>
              if k = (slot, some hash) then some voters2 else v.vote_pool k }
            if can_form_certificate s1 slot (some hash) then
              let v3 := { v2 with certificates := fun k =>
                if k = (slot, some hash) then true else v2.certificates k }
              some { s1 with
                global_certificates := fun k =>
                  if k = (slot, some hash) then some (get_stake_for_voters s1 voters2)
                  else s1.global_certificates k
                validators := s.validators.set e.dst v3 }
            else
              some { s1 with validators := s.validators.set e.dst v2 }
        | .skipVote slot voter =>
            let voters2 := insert voter ((v.vote_pool (slot, none)).getD ∅)
            let v2 := { v with vote_pool := fun k =>
              if k = (slot, none) then some voters2 else v.vote_pool k }
            if can_form_certificate s1 slot none then
              let v3 := { v2 with certificates := fun k =>
                if k = (slot, none) then true else v2.certificates k }
              some { s1 with
                global_certificates := fun k =>
                  if k = (slot, none) then some (get_stake_for_voters s1 voters2)
                  else s1.global_certificates k
                validators := s.validators.set e.dst v3 }
            else
              some { s1 with validators := s.validators.set e.dst v2 }
        | .blockCertificate slot hash stake =>
            let v2 := { v with certificates := fun k =>
              if k = (slot, some hash) then true else v.certificates k }
            some { s1 with
              global_certificates := fun k =>
                if k = (slot, some hash) then some stake else s1.global_certificates k
              validators := s.validators.set e.dst v2 }
        | .skipCertificate slot stake =>
            let v2 := { v with certificates := fun k =>
              if k = (slot, none) then true else v.certificates k }
            some { s1 with
              global_certificates := fun k =>
                if k = (slot, none) then some stake else s1.global_certificates k
              validators := s.validators.set e.dst v2 }
      else none
  | .adversaryEquivocate slot hash1 hash2 adversary =>
      let v := s.vAt adversary
      if v.is_adversary then
        let v2 := { v with
          votes_cast := insert (slot, some hash1) (insert (slot, some hash2) v.votes_cast) }
        some { s with
          network := broadcast m.validator_count (.notarVote slot hash2 adversary)
            (broadcast m.validator_count (.notarVote slot hash1 adversary) s.network)
          validators := s.validators.set adversary v2 }
      else some s

/-- CertificateModel::actions, as an enabledness relation. -/
def Gen (m : CertificateModel) (s : CertificateState) : CertificateAction → Prop
  | .deliverMessage e => e ∈ s.network
  | .castNotarVote slot hash voter =>
      1 ≤ slot ∧ slot ≤ m.max_slot ∧ 1 ≤ hash ∧ hash ≤ 3 ∧ voter < m.validator_count ∧
        (slot, some hash) ∉ (s.vAt voter).votes_cast
  | .castSkipVote slot voter =>
      1 ≤ slot ∧ slot ≤ m.max_slot ∧ voter < m.validator_count ∧
        (slot, none) ∉ (s.vAt voter).votes_cast
  | .adversaryEquivocate slot hash1 hash2 adversary =>
      1 ≤ slot ∧ slot ≤ m.max_slot ∧ adversary < m.adversary_count ∧
        hash1 = slot * 1000 + 1 ∧ hash2 = slot * 1000 + 2

/-- States reachable from the initial state of the certificate model by the
generated actions. -/
inductive Reach (m : CertificateModel) : CertificateState → Prop where
  | init : Reach m (initState m.validator_count m.adversary_count)
  | step {s a s2} : Reach m s → Gen m s a → next m s a = some s2 → Reach m s2

end Cert

namespace Cert

/-- getD after set, at the written index. -/
theorem getD_set_self {α : Type} (l : List α) (i : Nat) (v d : α) (h : i < l.length) :
    (l.set i v).getD i d = v := by
  simp [List.getD_eq_getElem?_getD, List.getElem?_set_eq_of_lt v h]

/-- getD after set, away from the written index. -/
theorem getD_set_other {α : Type} (l : List α) (i j : Nat) (v d : α) (h : j ≠ i) :
    (l.set i v).getD j d = l.getD j d := by
  simp [List.getD_eq_getElem?_getD, List.getElem?_set_ne h.symm]

/-- getD out of range gives the default. -/
theorem getD_len_le {α : Type} (l : List α) (i : Nat) (d : α) (h : l.length ≤ i) :
    l.getD i d = d := by
  simp [List.getD_eq_getElem?_getD, List.getElem?_eq_none h]

/-- Membership in a broadcast network. -/
theorem mem_broadcast {n : Nat} {msg : CertificateMessage} {net : Finset MessageInTransit}
    {e : MessageInTransit} :
    e ∈ broadcast n msg net ↔ e ∈ net ∨ (e.dst < n ∧ e.msg = msg) := by
  cases e with
  | mk d mg =>
    simp only [broadcast, Finset.mem_union, Finset.mem_image, Finset.mem_range]
    constructor
    · rintro (h | ⟨i, hi, he⟩)
      · exact Or.inl h
      · cases he
        exact Or.inr ⟨hi, rfl⟩
    · rintro (h | ⟨hd, hm⟩)
      · exact Or.inl h
      · cases hm
        exact Or.inr ⟨d, hd, rfl⟩

/-- A default-valued validator is not an adversary, so an adversary index is in
range. -/
theorem lt_length_of_adversary {s : CertificateState} {i : Nat}
    (h : (s.vAt i).is_adversary = true) : i < s.validators.length := by
  by_contra hge
  rw [CertificateState.vAt, getD_len_le _ _ _ (Nat.le_of_not_lt hge)] at h
  simp [default] at h

/-- Hashes an honest validator can vote for: skip, or one of the block hashes
1..3 enumerated by CertificateModel::actions. -/
def normalHash (h : Option Nat) : Prop :=
  h = none ∨ h = some 1 ∨ h = some 2 ∨ h = some 3

/-- The adversarial equivocation hashes of a slot at least 1 are not normal. -/
theorem not_normalHash_equiv {slot : Nat} (hs : 1 ≤ slot) :
    ¬ normalHash (some (slot * 1000 + 1)) ∧ ¬ normalHash (some (slot * 1000 + 2)) := by
  constructor <;>
  · rintro (h | h | h | h) <;> simp_all <;> omega

/-- Inductive invariant of the certificate model. -/
structure Inv (m : CertificateModel) (s : CertificateState) : Prop where
  len_eq : s.validators.length = m.validator_count
  stake_eq : s.stake_distribution = fun i =>
    if i < m.validator_count then some (TOTAL_STAKE / m.validator_count) else none
  adv_flag : ∀ i, i < m.validator_count →
    ((s.vAt i).is_adversary = true ↔ i < m.adversary_count)
  net_dst : ∀ e ∈ s.network, e.dst < m.validator_count
  net_notar : ∀ e ∈ s.network, ∀ slot hash voter,
    e.msg = CertificateMessage.notarVote slot hash voter →
    voter < m.validator_count ∧ (slot, some hash) ∈ (s.vAt voter).votes_cast
  net_skip : ∀ e ∈ s.network, ∀ slot voter,
    e.msg = CertificateMessage.skipVote slot voter →
    voter < m.validator_count ∧ (slot, none) ∈ (s.vAt voter).votes_cast
  net_nocert : ∀ e ∈ s.network,
    (∀ slot hash stake, e.msg ≠ CertificateMessage.blockCertificate slot hash stake) ∧
    (∀ slot stake, e.msg ≠ CertificateMessage.skipCertificate slot stake)
  pool_sound : ∀ r slot h voters, (s.vAt r).vote_pool (slot, h) = some voters →
    ∀ v ∈ voters, v < m.validator_count ∧ (slot, h) ∈ (s.vAt v).votes_cast
  votes_slot_pos : ∀ v, ∀ k ∈ (s.vAt v).votes_cast, 1 ≤ k.1
  votes_shape : ∀ v, ∀ k ∈ (s.vAt v).votes_cast,
    normalHash k.2 ∨ ((s.vAt v).is_adversary = true ∧
      (k.2 = some (k.1 * 1000 + 1) ∨ k.2 = some (k.1 * 1000 + 2)))
  votes_unique : ∀ v slot h1 h2, (slot, h1) ∈ (s.vAt v).votes_cast →
    (slot, h2) ∈ (s.vAt v).votes_cast → normalHash h1 → normalHash h2 → h1 = h2
  cert_stake : ∀ slot h, (s.global_certificates (slot, h)).isSome = true →
    can_form_certificate s slot h = true

/-- The validator states of the initial state. -/
theorem vAt_init (n A i : Nat) :
    (initState n A).vAt i =
      if i < n then
        { votes_cast := ∅, vote_pool := fun _ => none, certificates := fun _ => false,
          is_adversary := decide (i < A), stake := TOTAL_STAKE / n }
      else default := by
  by_cases h : i < n
  · simp [initState, CertificateState.vAt, List.getD_eq_getElem?_getD,
      List.getElem?_range h, h]
  · have hlen : ((List.range n).map (fun i =>
        ({ votes_cast := ∅, vote_pool := fun _ => none, certificates := fun _ => false,
           is_adversary := decide (i < A), stake := TOTAL_STAKE / n } :
          ValidatorState))).length ≤ i := by
      simpa using Nat.le_of_not_lt h
    simp [initState, CertificateState.vAt, List.getD_eq_getElem?_getD,
      List.getElem?_eq_none hlen, h]

/-- Initial validators have no votes. -/
theorem vAt_init_votes (n A i : Nat) : ((initState n A).vAt i).votes_cast = ∅ := by
  rw [vAt_init]; split <;> rfl

/-- Initial validators have empty pools. -/
theorem vAt_init_pool (n A i : Nat) : ((initState n A).vAt i).vote_pool = fun _ => none := by
  rw [vAt_init]; split <;> rfl

/-- The invariant holds initially. -/
theorem inv_init (m : CertificateModel) :
    Inv m (initState m.validator_count m.adversary_count) := by
  constructor
  · simp [initState]
  · rfl
  · intro i hi
    rw [vAt_init]
    simp [hi]
  · intro e he
    simp [initState] at he
  · intro e he
    simp [initState] at he
  · intro e he
    simp [initState] at he
  · intro e he
    simp [initState] at he
  · intro r slot h voters hp
    rw [vAt_init_pool] at hp
    exact absurd hp (by simp)
  · intro v k hk
    rw [vAt_init_votes] at hk
    exact absurd hk (by simp)
  · intro v k hk
    rw [vAt_init_votes] at hk
    exact absurd hk (by simp)
  · intro v slot h1 h2 hk
    rw [vAt_init_votes] at hk
    exact absurd hk (by simp)
  · intro slot h hg
    simp [initState] at hg

end Cert

namespace Cert

/-- can_form_certificate reads only the validator-0 pool entry and the stake
distribution. -/
theorem can_form_eq {s t : CertificateState} {slot : Nat} {h : Option Nat}
    (hp : (s.vAt 0).vote_pool (slot, h) = (t.vAt 0).vote_pool (slot, h))
    (hst : s.stake_distribution = t.stake_distribution) :
    can_form_certificate s slot h = can_form_certificate t slot h := by
  unfold can_form_certificate get_stake_for_voters
  rw [hp, hst]

/-- can_form_certificate is monotone when the validator-0 pool entry only
grows. -/
theorem can_form_mono {s t : CertificateState} {slot : Nat} {h : Option Nat}
    (hst : s.stake_distribution = t.stake_distribution)
    (hp : ∀ voters, (s.vAt 0).vote_pool (slot, h) = some voters →
      ∃ voters2, (t.vAt 0).vote_pool (slot, h) = some voters2 ∧ voters ⊆ voters2)
    (hc : can_form_certificate s slot h = true) :
    can_form_certificate t slot h = true := by
  unfold can_form_certificate at hc ⊢
  cases hps : (s.vAt 0).vote_pool (slot, h) with
  | none => rw [hps] at hc; exact absurd hc (by simp)
  | some voters =>
    rw [hps] at hc
    obtain ⟨voters2, hpt, hsub⟩ := hp voters hps
    rw [hpt]
    simp only [decide_eq_true_eq] at hc ⊢
    refine le_trans hc (le_trans (Finset.sum_le_sum_of_subset hsub) ?_)
    unfold get_stake_for_voters
    rw [hst]


/-- Validator access in a state built from a single in-range update of the
validators of s. -/
theorem vAt_mk_set (net : Finset MessageInTransit) (s : CertificateState) {idx : Nat}
    (v2 : ValidatorState) (g : Nat × Option Nat → Option Nat) (sd : Nat → Option Nat)
    (h : idx < s.validators.length) (j : Nat) :
    (CertificateState.mk net (s.validators.set idx v2) g sd).vAt j =
      if j = idx then v2 else s.vAt j := by
  unfold CertificateState.vAt
  by_cases hj : j = idx
  · subst hj
    rw [if_pos rfl]
    exact getD_set_self _ _ _ _ h
  · rw [if_neg hj]
    exact getD_set_other _ _ _ _ _ hj

/-- Preservation of the invariant by CastNotarVote. -/
theorem inv_castNotar {m : CertificateModel} {s s2 : CertificateState} {slot hash voter : Nat}
    (hI : Inv m s) (hg : Gen m s (CertificateAction.castNotarVote slot hash voter))
    (hn : next m s (CertificateAction.castNotarVote slot hash voter) = some s2) :
    Inv m s2 := by
  obtain ⟨hs1, -, hh1, hh3, hvn, -⟩ := hg
  have hvlen : voter < s.validators.length := by rw [hI.len_eq]; exact hvn
  simp only [next] at hn
  split at hn
  · injection hn with h2
    exact h2 ▸ hI
  · rename_i hvote
    injection hn with h2
    subst h2
    have hv := vAt_mk_set
      (broadcast m.validator_count (CertificateMessage.notarVote slot hash voter) s.network) s
      { s.vAt voter with votes_cast := insert (slot, some hash) (s.vAt voter).votes_cast }
      s.global_certificates s.stake_distribution hvlen
    refine ⟨?_, hI.stake_eq, ?_, ?_, ?_, ?_, ?_, ?_, ?_, ?_, ?_, ?_⟩
    · simpa using hI.len_eq
    · intro i hi
      rw [hv i]
      split
      · rename_i hj
        subst hj
        simpa using hI.adv_flag _ hi
      · exact hI.adv_flag _ hi
    · intro e he
      rcases mem_broadcast.mp he with he | ⟨hd, -⟩
      · exact hI.net_dst e he
      · exact hd
    · intro e he sl ha vo hmsg
      rcases mem_broadcast.mp he with he | ⟨hd, hm⟩
      · obtain ⟨h1, h2⟩ := hI.net_notar e he sl ha vo hmsg
        refine ⟨h1, ?_⟩
        rw [hv vo]
        split
        · rename_i hj
          subst hj
          exact Finset.mem_insert_of_mem h2
        · exact h2
      · rw [hm] at hmsg
        injection hmsg with e1 e2 e3
        subst e1; subst e2; subst e3
        refine ⟨hvn, ?_⟩
        rw [hv voter, if_pos rfl]
        exact Finset.mem_insert_self _ _
    · intro e he sl vo hmsg
      rcases mem_broadcast.mp he with he | ⟨hd, hm⟩
      · obtain ⟨h1, h2⟩ := hI.net_skip e he sl vo hmsg
        refine ⟨h1, ?_⟩
        rw [hv vo]
        split
        · rename_i hj
          subst hj
          exact Finset.mem_insert_of_mem h2
        · exact h2
      · rw [hm] at hmsg
        exact absurd hmsg (by simp)
    · intro e he
      rcases mem_broadcast.mp he with he | ⟨hd, hm⟩
      · exact hI.net_nocert e he
      · rw [hm]
        exact ⟨by simp, by simp⟩
    · intro r sl h voters hp v hvmem
      rw [hv r] at hp
      have hp2 : (s.vAt r).vote_pool (sl, h) = some voters := by
        by_cases hr : r = voter
        · rw [if_pos hr] at hp
          rw [hr]
          exact hp
        · rw [if_neg hr] at hp
          exact hp
      obtain ⟨h1, h2⟩ := hI.pool_sound r sl h voters hp2 v hvmem
      refine ⟨h1, ?_⟩
      rw [hv v]
      split
      · rename_i hj
        subst hj
        exact Finset.mem_insert_of_mem h2
      · exact h2
    · intro v k hk
      rw [hv v] at hk
      by_cases hvv : v = voter
      · rw [if_pos hvv] at hk
        rcases Finset.mem_insert.mp hk with hk | hk
        · subst hk
          exact hs1
        · exact hI.votes_slot_pos voter k hk
      · rw [if_neg hvv] at hk
        exact hI.votes_slot_pos v k hk
    · intro v k hk
      rw [hv v] at hk ⊢
      by_cases hvv : v = voter
      · rw [if_pos hvv] at hk ⊢
        rcases Finset.mem_insert.mp hk with hk | hk
        · subst hk
          left
          have h3 : hash = 1 ∨ hash = 2 ∨ hash = 3 := by omega
          rcases h3 with h3 | h3 | h3 <;> subst h3 <;> simp [normalHash]
        · rcases hI.votes_shape voter k hk with h | ⟨ha, hsp⟩
          · exact Or.inl h
          · exact Or.inr ⟨ha, hsp⟩
      · rw [if_neg hvv] at hk ⊢
        exact hI.votes_shape v k hk
    · intro v sl h1 h2 hk1 hk2 hn1 hn2
      rw [hv v] at hk1 hk2
      by_cases hvv : v = voter
      · rw [if_pos hvv] at hk1 hk2
        rcases Finset.mem_insert.mp hk1 with hk1 | hk1 <;>
          rcases Finset.mem_insert.mp hk2 with hk2 | hk2
        · rw [Prod.mk.injEq] at hk1 hk2
          rw [hk1.2, hk2.2]
        · exfalso
          rw [Prod.mk.injEq] at hk1
          exact hvote ⟨(sl, h2), hk2, hk1.1⟩
        · exfalso
          rw [Prod.mk.injEq] at hk2
          exact hvote ⟨(sl, h1), hk1, hk2.1⟩
        · exact hI.votes_unique voter sl h1 h2 hk1 hk2 hn1 hn2
      · rw [if_neg hvv] at hk1 hk2
        exact hI.votes_unique v sl h1 h2 hk1 hk2 hn1 hn2
    · intro sl h hg2
      have hc := hI.cert_stake sl h hg2
      have hp : ∀ k, ((CertificateState.mk
          (broadcast m.validator_count (CertificateMessage.notarVote slot hash voter) s.network)
          (s.validators.set voter
            { s.vAt voter with votes_cast := insert (slot, some hash) (s.vAt voter).votes_cast })
          s.global_certificates s.stake_distribution).vAt 0).vote_pool k =
          (s.vAt 0).vote_pool k := by
        intro k
        rw [hv 0]
        split
        · rename_i hj
          rw [hj]
        · rfl
      rw [can_form_eq (hp (sl, h)) rfl]
      exact hc

end Cert

namespace Cert

/-- Preservation of the invariant by CastSkipVote. -/
theorem inv_castSkip {m : CertificateModel} {s s2 : CertificateState} {slot voter : Nat}
    (hI : Inv m s) (hg : Gen m s (CertificateAction.castSkipVote slot voter))
    (hn : next m s (CertificateAction.castSkipVote slot voter) = some s2) :
    Inv m s2 := by
  obtain ⟨hs1, -, hvn, -⟩ := hg
  have hvlen : voter < s.validators.length := by rw [hI.len_eq]; exact hvn
  simp only [next] at hn
  split at hn
  · injection hn with h2
    exact h2 ▸ hI
  · rename_i hvote
    injection hn with h2
    subst h2
    have hv := vAt_mk_set
      (broadcast m.validator_count (CertificateMessage.skipVote slot voter) s.network) s
      { s.vAt voter with votes_cast := insert (slot, none) (s.vAt voter).votes_cast }
      s.global_certificates s.stake_distribution hvlen
    refine ⟨?_, hI.stake_eq, ?_, ?_, ?_, ?_, ?_, ?_, ?_, ?_, ?_, ?_⟩
    · simpa using hI.len_eq
    · intro i hi
      rw [hv i]
      split
      · rename_i hj
        subst hj
        simpa using hI.adv_flag _ hi
      · exact hI.adv_flag _ hi
    · intro e he
      rcases mem_broadcast.mp he with he | ⟨hd, -⟩
      · exact hI.net_dst e he
      · exact hd
    · intro e he sl ha vo hmsg
      rcases mem_broadcast.mp he with he | ⟨hd, hm⟩
      · obtain ⟨h1, h2⟩ := hI.net_notar e he sl ha vo hmsg
        refine ⟨h1, ?_⟩
        rw [hv vo]
        split
        · rename_i hj
          subst hj
          exact Finset.mem_insert_of_mem h2
        · exact h2
      · rw [hm] at hmsg
        exact absurd hmsg (by simp)
    · intro e he sl vo hmsg
      rcases mem_broadcast.mp he with he | ⟨hd, hm⟩
      · obtain ⟨h1, h2⟩ := hI.net_skip e he sl vo hmsg
        refine ⟨h1, ?_⟩
        rw [hv vo]
        split
        · rename_i hj
          subst hj
          exact Finset.mem_insert_of_mem h2
        · exact h2
      · rw [hm] at hmsg
        injection hmsg with e1 e2
        subst e1; subst e2
        refine ⟨hvn, ?_⟩
        rw [hv voter, if_pos rfl]
        exact Finset.mem_insert_self _ _
    · intro e he
      rcases mem_broadcast.mp he with he | ⟨hd, hm⟩
      · exact hI.net_nocert e he
      · rw [hm]
        exact ⟨by simp, by simp⟩
    · intro r sl h voters hp v hvmem
      rw [hv r] at hp
      have hp2 : (s.vAt r).vote_pool (sl, h) = some voters := by
        by_cases hr : r = voter
        · rw [if_pos hr] at hp
          rw [hr]
          exact hp
        · rw [if_neg hr] at hp
          exact hp
      obtain ⟨h1, h2⟩ := hI.pool_sound r sl h voters hp2 v hvmem
      refine ⟨h1, ?_⟩
      rw [hv v]
      split
      · rename_i hj
        subst hj
        exact Finset.mem_insert_of_mem h2
      · exact h2
    · intro v k hk
      rw [hv v] at hk
      by_cases hvv : v = voter
      · rw [if_pos hvv] at hk
        rcases Finset.mem_insert.mp hk with hk | hk
        · subst hk
          exact hs1
        · exact hI.votes_slot_pos voter k hk
      · rw [if_neg hvv] at hk
        exact hI.votes_slot_pos v k hk
    · intro v k hk
      rw [hv v] at hk ⊢
      by_cases hvv : v = voter
      · rw [if_pos hvv] at hk ⊢
        rcases Finset.mem_insert.mp hk with hk | hk
        · subst hk
          left
          simp [normalHash]
        · rcases hI.votes_shape voter k hk with h | ⟨ha, hsp⟩
          · exact Or.inl h
          · exact Or.inr ⟨ha, hsp⟩
      · rw [if_neg hvv] at hk ⊢
        exact hI.votes_shape v k hk
    · intro v sl h1 h2 hk1 hk2 hn1 hn2
      rw [hv v] at hk1 hk2
      by_cases hvv : v = voter
      · rw [if_pos hvv] at hk1 hk2
        rcases Finset.mem_insert.mp hk1 with hk1 | hk1 <;>
          rcases Finset.mem_insert.mp hk2 with hk2 | hk2
        · rw [Prod.mk.injEq] at hk1 hk2
          rw [hk1.2, hk2.2]
        · exfalso
          rw [Prod.mk.injEq] at hk1
          exact hvote ⟨(sl, h2), hk2, hk1.1⟩
        · exfalso
          rw [Prod.mk.injEq] at hk2
          exact hvote ⟨(sl, h1), hk1, hk2.1⟩
        · exact hI.votes_unique voter sl h1 h2 hk1 hk2 hn1 hn2
      · rw [if_neg hvv] at hk1 hk2
        exact hI.votes_unique v sl h1 h2 hk1 hk2 hn1 hn2
    · intro sl h hg2
      have hc := hI.cert_stake sl h hg2
      have hp : ∀ k, ((CertificateState.mk
          (broadcast m.validator_count (CertificateMessage.skipVote slot voter) s.network)
          (s.validators.set voter
            { s.vAt voter with votes_cast := insert (slot, none) (s.vAt voter).votes_cast })
          s.global_certificates s.stake_distribution).vAt 0).vote_pool k =
          (s.vAt 0).vote_pool k := by
        intro k
        rw [hv 0]
        split
        · rename_i hj
          rw [hj]
        · rfl
      rw [can_form_eq (hp (sl, h)) rfl]
      exact hc

end Cert

namespace Cert

/-- Preservation of the invariant by AdversaryEquivocate. -/
theorem inv_equivocate {m : CertificateModel} {s s2 : CertificateState}
    {slot hash1 hash2 adv : Nat}
    (hI : Inv m s) (hg : Gen m s (CertificateAction.adversaryEquivocate slot hash1 hash2 adv))
    (hn : next m s (CertificateAction.adversaryEquivocate slot hash1 hash2 adv) = some s2) :
    Inv m s2 := by
  obtain ⟨hs1, -, -, hh1, hh2⟩ := hg
  subst hh1; subst hh2
  simp only [next] at hn
  split at hn
  case isFalse =>
    injection hn with h2
    exact h2 ▸ hI
  case isTrue hadv =>
    have hvlen : adv < s.validators.length := lt_length_of_adversary hadv
    injection hn with h2
    subst h2
    have hv := vAt_mk_set
      (broadcast m.validator_count (CertificateMessage.notarVote slot (slot * 1000 + 2) adv)
        (broadcast m.validator_count (CertificateMessage.notarVote slot (slot * 1000 + 1) adv)
          s.network)) s
      { s.vAt adv with votes_cast := insert (slot, some (slot * 1000 + 1)) (insert (slot, some (slot * 1000 + 2)) (s.vAt adv).votes_cast) }
      s.global_certificates s.stake_distribution hvlen
    have hmem2 : ∀ e : MessageInTransit,
        e ∈ broadcast m.validator_count
            (CertificateMessage.notarVote slot (slot * 1000 + 2) adv)
            (broadcast m.validator_count
              (CertificateMessage.notarVote slot (slot * 1000 + 1) adv) s.network) →
        e ∈ s.network ∨ (e.dst < m.validator_count ∧
          (e.msg = CertificateMessage.notarVote slot (slot * 1000 + 1) adv ∨
           e.msg = CertificateMessage.notarVote slot (slot * 1000 + 2) adv)) := by
      intro e he
      rcases mem_broadcast.mp he with he | ⟨hd, hm⟩
      · rcases mem_broadcast.mp he with he | ⟨hd, hm⟩
        · exact Or.inl he
        · exact Or.inr ⟨hd, Or.inl hm⟩
      · exact Or.inr ⟨hd, Or.inr hm⟩
    have hnewmem : ∀ h : Option Nat,
        (h = some (slot * 1000 + 1) ∨ h = some (slot * 1000 + 2)) →
        (slot, h) ∈ insert (slot, some (slot * 1000 + 1))
          (insert (slot, some (slot * 1000 + 2)) (s.vAt adv).votes_cast) := by
      rintro h (rfl | rfl)
      · exact Finset.mem_insert_self _ _
      · exact Finset.mem_insert_of_mem (Finset.mem_insert_self _ _)
    refine ⟨?_, hI.stake_eq, ?_, ?_, ?_, ?_, ?_, ?_, ?_, ?_, ?_, ?_⟩
    · simpa using hI.len_eq
    · intro i hi
      rw [hv i]
      split
      · rename_i hj
        subst hj
        simpa using hI.adv_flag _ hi
      · exact hI.adv_flag _ hi
    · intro e he
      rcases hmem2 e he with he | ⟨hd, -⟩
      · exact hI.net_dst e he
      · exact hd
    · intro e he sl ha vo hmsg
      rcases hmem2 e he with he | ⟨hd, hm⟩
      · obtain ⟨h1, h2⟩ := hI.net_notar e he sl ha vo hmsg
        refine ⟨h1, ?_⟩
        rw [hv vo]
        split
        · rename_i hj
          subst hj
          exact Finset.mem_insert_of_mem (Finset.mem_insert_of_mem h2)
        · exact h2
      · have hvoeq : sl = slot ∧ vo = adv ∧
            (some ha = some (slot * 1000 + 1) ∨ some ha = some (slot * 1000 + 2)) := by
          rcases hm with hm | hm <;> rw [hm] at hmsg <;>
            injection hmsg with e1 e2 e3
          · exact ⟨e1.symm, e3.symm, Or.inl (by rw [e2])⟩
          · exact ⟨e1.symm, e3.symm, Or.inr (by rw [e2])⟩
        obtain ⟨rfl, rfl, hcase⟩ := hvoeq
        refine ⟨by rwa [hI.len_eq] at hvlen, ?_⟩
        rw [hv vo, if_pos rfl]
        exact hnewmem _ hcase
    · intro e he sl vo hmsg
      rcases hmem2 e he with he | ⟨hd, hm⟩
      · obtain ⟨h1, h2⟩ := hI.net_skip e he sl vo hmsg
        refine ⟨h1, ?_⟩
        rw [hv vo]
        split
        · rename_i hj
          subst hj
          exact Finset.mem_insert_of_mem (Finset.mem_insert_of_mem h2)
        · exact h2
      · rcases hm with hm | hm <;> rw [hm] at hmsg <;> exact absurd hmsg (by simp)
    · intro e he
      rcases hmem2 e he with he | ⟨hd, hm⟩
      · exact hI.net_nocert e he
      · rcases hm with hm | hm <;> rw [hm] <;> exact ⟨by simp, by simp⟩
    · intro r sl h voters hp v hvmem
      rw [hv r] at hp
      have hp2 : (s.vAt r).vote_pool (sl, h) = some voters := by
        by_cases hr : r = adv
        · rw [if_pos hr] at hp
          rw [hr]
          exact hp
        · rw [if_neg hr] at hp
          exact hp
      obtain ⟨h1, h2⟩ := hI.pool_sound r sl h voters hp2 v hvmem
      refine ⟨h1, ?_⟩
      rw [hv v]
      split
      · rename_i hj
        subst hj
        exact Finset.mem_insert_of_mem (Finset.mem_insert_of_mem h2)
      · exact h2
    · intro v k hk
      rw [hv v] at hk
      by_cases hvv : v = adv
      · rw [if_pos hvv] at hk
        rcases Finset.mem_insert.mp hk with hk | hk
        · subst hk
          exact hs1
        · rcases Finset.mem_insert.mp hk with hk | hk
          · subst hk
            exact hs1
          · exact hI.votes_slot_pos adv k hk
      · rw [if_neg hvv] at hk
        exact hI.votes_slot_pos v k hk
    · intro v k hk
      rw [hv v] at hk ⊢
      by_cases hvv : v = adv
      · rw [if_pos hvv] at hk ⊢
        rcases Finset.mem_insert.mp hk with hk | hk
        · subst hk
          right
          exact ⟨hadv, Or.inl rfl⟩
        · rcases Finset.mem_insert.mp hk with hk | hk
          · subst hk
            right
            exact ⟨hadv, Or.inr rfl⟩
          · rcases hI.votes_shape adv k hk with h | ⟨ha, hsp⟩
            · exact Or.inl h
            · exact Or.inr ⟨ha, hsp⟩
      · rw [if_neg hvv] at hk ⊢
        exact hI.votes_shape v k hk
    · intro v sl h1 h2 hk1 hk2 hn1 hn2
      rw [hv v] at hk1 hk2
      by_cases hvv : v = adv
      · rw [if_pos hvv] at hk1 hk2
        have hnot1 := (not_normalHash_equiv hs1).1
        have hnot2 := (not_normalHash_equiv hs1).2
        have hget : ∀ h : Option Nat, normalHash h →
            (sl, h) ∈ insert (slot, some (slot * 1000 + 1))
              (insert (slot, some (slot * 1000 + 2)) (s.vAt adv).votes_cast) →
            (sl, h) ∈ (s.vAt adv).votes_cast := by
          intro h hnh hmem
          rcases Finset.mem_insert.mp hmem with hx | hx
          · exfalso
            rw [Prod.mk.injEq] at hx
            rw [hx.2] at hnh
            exact hnot1 hnh
          · rcases Finset.mem_insert.mp hx with hx | hx
            · exfalso
              rw [Prod.mk.injEq] at hx
              rw [hx.2] at hnh
              exact hnot2 hnh
            · exact hx
        exact hI.votes_unique adv sl h1 h2 (hget h1 hn1 hk1) (hget h2 hn2 hk2) hn1 hn2
      · rw [if_neg hvv] at hk1 hk2
        exact hI.votes_unique v sl h1 h2 hk1 hk2 hn1 hn2
    · intro sl h hg2
      have hc := hI.cert_stake sl h hg2
      have hp : ((CertificateState.mk
          (broadcast m.validator_count (CertificateMessage.notarVote slot (slot * 1000 + 2) adv)
            (broadcast m.validator_count
              (CertificateMessage.notarVote slot (slot * 1000 + 1) adv) s.network))
          (s.validators.set adv
            { s.vAt adv with votes_cast := insert (slot, some (slot * 1000 + 1)) (insert (slot, some (slot * 1000 + 2)) (s.vAt adv).votes_cast) })
          s.global_certificates s.stake_distribution).vAt 0).vote_pool (sl, h) =
          (s.vAt 0).vote_pool (sl, h) := by
        rw [hv 0]
        split
        · rename_i hj
          rw [hj]
        · rfl
      rw [can_form_eq hp rfl]
      exact hc

end Cert

namespace Cert

/-- After inserting one voter into one pool entry of one validator, every
certificate that could be formed before can still be formed. -/
theorem can_form_after_pool_insert {s : CertificateState} {d : Nat}
    (hdlen : d < s.validators.length)
    (net : Finset MessageInTransit) (g : Nat × Option Nat → Option Nat)
    (key : Nat × Option Nat) (vt : Nat) {v2 : ValidatorState}
    (hv2 : ∀ k, v2.vote_pool k =
      if k = key then some (insert vt (((s.vAt d).vote_pool key).getD ∅))
      else (s.vAt d).vote_pool k)
    {sl : Nat} {h : Option Nat}
    (hc : can_form_certificate s sl h = true) :
    can_form_certificate
      (CertificateState.mk net (s.validators.set d v2) g s.stake_distribution) sl h = true := by
  refine can_form_mono ?_ ?_ hc
  · rfl
  · intro voters hpv
    rw [vAt_mk_set net s v2 g s.stake_distribution hdlen 0]
    by_cases h0 : (0 : Nat) = d
    · rw [if_pos h0]
      rw [show ((sl, h) : Nat × Option Nat) = (sl, h) from rfl] at hpv
      by_cases hk : ((sl, h) : Nat × Option Nat) = key
      · refine ⟨insert vt (((s.vAt d).vote_pool key).getD ∅), ?_, ?_⟩
        · rw [hv2 (sl, h), if_pos hk]
        · have hpd : (s.vAt d).vote_pool key = some voters := by
            rw [← h0, ← hk]
            exact hpv
          rw [hpd, Option.getD_some]
          exact Finset.subset_insert _ _
      · refine ⟨voters, ?_, Finset.Subset.refl _⟩
        rw [hv2 (sl, h), if_neg hk, ← h0]
        exact hpv
    · rw [if_neg h0]
      exact ⟨voters, hpv, Finset.Subset.refl _⟩

end Cert


namespace Cert

/-- Preservation of the invariant by DeliverMessage. -/
theorem inv_deliver {m : CertificateModel} {s s2 : CertificateState} {e : MessageInTransit}
    (hI : Inv m s) (hg : Gen m s (CertificateAction.deliverMessage e))
    (hn : next m s (CertificateAction.deliverMessage e) = some s2) :
    Inv m s2 := by
  have hg2 : e ∈ s.network := hg
  obtain ⟨d, msg⟩ := e
  have hd : d < m.validator_count := hI.net_dst _ hg2
  have hdlen : d < s.validators.length := by rw [hI.len_eq]; exact hd
  cases msg with
  | blockCertificate slot hash stake =>
      exact absurd rfl ((hI.net_nocert _ hg2).1 slot hash stake)
  | skipCertificate slot stake =>
      exact absurd rfl ((hI.net_nocert _ hg2).2 slot stake)
  | notarVote slot hash voter =>
      obtain ⟨hvn, hvm0⟩ := hI.net_notar _ hg2 slot hash voter rfl
      simp only [next] at hn
      rw [if_pos hg2] at hn
      split at hn
      case isTrue hform =>
        injection hn with h2
        subst h2
        have hform2 : can_form_certificate s slot (some hash) = true := hform
        refine ⟨?_, hI.stake_eq, ?_, ?_, ?_, ?_, ?_, ?_, ?_, ?_, ?_, ?_⟩
        · simpa using hI.len_eq
        · intro i hi
          rw [vAt_mk_set _ s _ _ _ hdlen i]
          split
          · rename_i hj
            subst hj
            simpa using hI.adv_flag _ hi
          · exact hI.adv_flag _ hi
        · intro e2 he2
          exact hI.net_dst e2 (Finset.mem_of_mem_erase he2)
        · intro e2 he2 sl ha vo hmsg
          obtain ⟨h1, h2⟩ := hI.net_notar e2 (Finset.mem_of_mem_erase he2) sl ha vo hmsg
          refine ⟨h1, ?_⟩
          rw [vAt_mk_set _ s _ _ _ hdlen vo]
          split
          · rename_i hj
            subst hj
            exact h2
          · exact h2
        · intro e2 he2 sl vo hmsg
          obtain ⟨h1, h2⟩ := hI.net_skip e2 (Finset.mem_of_mem_erase he2) sl vo hmsg
          refine ⟨h1, ?_⟩
          rw [vAt_mk_set _ s _ _ _ hdlen vo]
          split
          · rename_i hj
            subst hj
            exact h2
          · exact h2
        · intro e2 he2
          exact hI.net_nocert e2 (Finset.mem_of_mem_erase he2)
        · intro r sl h voters hp v hvmp
          rw [vAt_mk_set _ s _ _ _ hdlen r] at hp
          by_cases hr : r = d
          · rw [if_pos hr] at hp
            have hp2 : (if ((sl : Nat), h) = ((slot : Nat), some hash) then some (insert voter (((s.vAt d).vote_pool (slot, some hash)).getD ∅)) else (s.vAt d).vote_pool (sl, h)) = some voters := hp
            by_cases hk : ((sl : Nat), h) = ((slot : Nat), some hash)
            · rw [if_pos hk] at hp2
              injection hp2 with hp3
              rw [← hp3] at hvmp
              rcases Finset.mem_insert.mp hvmp with hveq | hvm2
              · subst hveq
                refine ⟨hvn, ?_⟩
                rw [vAt_mk_set _ s _ _ _ hdlen v, hk]
                split
                · rename_i hj
                  subst hj
                  exact hvm0
                · exact hvm0
              · cases hpool : (s.vAt d).vote_pool (slot, some hash) with
                | none =>
                    rw [hpool] at hvm2
                    exact absurd hvm2 (by simp)
                | some old =>
                    rw [hpool] at hvm2
                    rw [Option.getD_some] at hvm2
                    obtain ⟨h1, h2⟩ := hI.pool_sound d slot (some hash) old hpool v hvm2
                    refine ⟨h1, ?_⟩
                    rw [vAt_mk_set _ s _ _ _ hdlen v, hk]
                    split
                    · rename_i hj
                      subst hj
                      exact h2
                    · exact h2
            · rw [if_neg hk] at hp2
              obtain ⟨h1, h2⟩ := hI.pool_sound d sl h voters hp2 v hvmp
              refine ⟨h1, ?_⟩
              rw [vAt_mk_set _ s _ _ _ hdlen v]
              split
              · rename_i hj
                subst hj
                exact h2
              · exact h2
          · rw [if_neg hr] at hp
            obtain ⟨h1, h2⟩ := hI.pool_sound r sl h voters hp v hvmp
            refine ⟨h1, ?_⟩
            rw [vAt_mk_set _ s _ _ _ hdlen v]
            split
            · rename_i hj
              subst hj
              exact h2
            · exact h2
        · intro v k hk
          rw [vAt_mk_set _ s _ _ _ hdlen v] at hk
          by_cases hvv : v = d
          · rw [if_pos hvv] at hk
            exact hI.votes_slot_pos d k hk
          · rw [if_neg hvv] at hk
            exact hI.votes_slot_pos v k hk
        · intro v k hk
          rw [vAt_mk_set _ s _ _ _ hdlen v] at hk ⊢
          by_cases hvv : v = d
          · rw [if_pos hvv] at hk ⊢
            exact hI.votes_shape d k hk
          · rw [if_neg hvv] at hk ⊢
            exact hI.votes_shape v k hk
        · intro v sl h1 h2 hk1 hk2 hn1 hn2
          rw [vAt_mk_set _ s _ _ _ hdlen v] at hk1 hk2
          by_cases hvv : v = d
          · rw [if_pos hvv] at hk1 hk2
            exact hI.votes_unique d sl h1 h2 hk1 hk2 hn1 hn2
          · rw [if_neg hvv] at hk1 hk2
            exact hI.votes_unique v sl h1 h2 hk1 hk2 hn1 hn2
        · intro sl h hgc
          have hgc2 : (if ((sl : Nat), h) = ((slot : Nat), some hash) then some (get_stake_for_voters { s with network := s.network.erase ⟨d, CertificateMessage.notarVote slot hash voter⟩ } (insert voter (((s.vAt d).vote_pool (slot, some hash)).getD ∅))) else s.global_certificates (sl, h)).isSome = true := hgc
          by_cases hk : ((sl : Nat), h) = ((slot : Nat), some hash)
          · rw [Prod.mk.injEq] at hk
            rw [hk.1, hk.2]
            exact can_form_after_pool_insert hdlen _ _ (slot, some hash) voter (fun k => rfl) hform2
          · rw [if_neg hk] at hgc2
            exact can_form_after_pool_insert hdlen _ _ (slot, some hash) voter (fun k => rfl) (hI.cert_stake sl h hgc2)
      case isFalse hform =>
        injection hn with h2
        subst h2
        refine ⟨?_, hI.stake_eq, ?_, ?_, ?_, ?_, ?_, ?_, ?_, ?_, ?_, ?_⟩
        · simpa using hI.len_eq
        · intro i hi
          rw [vAt_mk_set _ s _ _ _ hdlen i]
          split
          · rename_i hj
            subst hj
            simpa using hI.adv_flag _ hi
          · exact hI.adv_flag _ hi
        · intro e2 he2
          exact hI.net_dst e2 (Finset.mem_of_mem_erase he2)
        · intro e2 he2 sl ha vo hmsg
          obtain ⟨h1, h2⟩ := hI.net_notar e2 (Finset.mem_of_mem_erase he2) sl ha vo hmsg
          refine ⟨h1, ?_⟩
          rw [vAt_mk_set _ s _ _ _ hdlen vo]
          split
          · rename_i hj
            subst hj
            exact h2
          · exact h2
        · intro e2 he2 sl vo hmsg
          obtain ⟨h1, h2⟩ := hI.net_skip e2 (Finset.mem_of_mem_erase he2) sl vo hmsg
          refine ⟨h1, ?_⟩
          rw [vAt_mk_set _ s _ _ _ hdlen vo]
          split
          · rename_i hj
            subst hj
            exact h2
          · exact h2
        · intro e2 he2
          exact hI.net_nocert e2 (Finset.mem_of_mem_erase he2)
        · intro r sl h voters hp v hvmp
          rw [vAt_mk_set _ s _ _ _ hdlen r] at hp
          by_cases hr : r = d
          · rw [if_pos hr] at hp
            have hp2 : (if ((sl : Nat), h) = ((slot : Nat), some hash) then some (insert voter (((s.vAt d).vote_pool (slot, some hash)).getD ∅)) else (s.vAt d).vote_pool (sl, h)) = some voters := hp
            by_cases hk : ((sl : Nat), h) = ((slot : Nat), some hash)
            · rw [if_pos hk] at hp2
              injection hp2 with hp3
              rw [← hp3] at hvmp
              rcases Finset.mem_insert.mp hvmp with hveq | hvm2
              · subst hveq
                refine ⟨hvn, ?_⟩
                rw [vAt_mk_set _ s _ _ _ hdlen v, hk]
                split
                · rename_i hj
                  subst hj
                  exact hvm0
                · exact hvm0
              · cases hpool : (s.vAt d).vote_pool (slot, some hash) with
                | none =>
                    rw [hpool] at hvm2
                    exact absurd hvm2 (by simp)
                | some old =>
                    rw [hpool] at hvm2
                    rw [Option.getD_some] at hvm2
                    obtain ⟨h1, h2⟩ := hI.pool_sound d slot (some hash) old hpool v hvm2
                    refine ⟨h1, ?_⟩
                    rw [vAt_mk_set _ s _ _ _ hdlen v, hk]
                    split
                    · rename_i hj
                      subst hj
                      exact h2
                    · exact h2
            · rw [if_neg hk] at hp2
              obtain ⟨h1, h2⟩ := hI.pool_sound d sl h voters hp2 v hvmp
              refine ⟨h1, ?_⟩
              rw [vAt_mk_set _ s _ _ _ hdlen v]
              split
              · rename_i hj
                subst hj
                exact h2
              · exact h2
          · rw [if_neg hr] at hp
            obtain ⟨h1, h2⟩ := hI.pool_sound r sl h voters hp v hvmp
            refine ⟨h1, ?_⟩
            rw [vAt_mk_set _ s _ _ _ hdlen v]
            split
            · rename_i hj
              subst hj
              exact h2
            · exact h2
        · intro v k hk
          rw [vAt_mk_set _ s _ _ _ hdlen v] at hk
          by_cases hvv : v = d
          · rw [if_pos hvv] at hk
            exact hI.votes_slot_pos d k hk
          · rw [if_neg hvv] at hk
            exact hI.votes_slot_pos v k hk
        · intro v k hk
          rw [vAt_mk_set _ s _ _ _ hdlen v] at hk ⊢
          by_cases hvv : v = d
          · rw [if_pos hvv] at hk ⊢
            exact hI.votes_shape d k hk
          · rw [if_neg hvv] at hk ⊢
            exact hI.votes_shape v k hk
        · intro v sl h1 h2 hk1 hk2 hn1 hn2
          rw [vAt_mk_set _ s _ _ _ hdlen v] at hk1 hk2
          by_cases hvv : v = d
          · rw [if_pos hvv] at hk1 hk2
            exact hI.votes_unique d sl h1 h2 hk1 hk2 hn1 hn2
          · rw [if_neg hvv] at hk1 hk2
            exact hI.votes_unique v sl h1 h2 hk1 hk2 hn1 hn2
        · intro sl h hgc
          have hgc2 : (s.global_certificates (sl, h)).isSome = true := hgc
          exact can_form_after_pool_insert hdlen _ _ (slot, some hash) voter (fun k => rfl) (hI.cert_stake sl h hgc2)
  | skipVote slot voter =>
      obtain ⟨hvn, hvm0⟩ := hI.net_skip _ hg2 slot voter rfl
      simp only [next] at hn
      rw [if_pos hg2] at hn
      split at hn
      case isTrue hform =>
        injection hn with h2
        subst h2
        have hform2 : can_form_certificate s slot none = true := hform
        refine ⟨?_, hI.stake_eq, ?_, ?_, ?_, ?_, ?_, ?_, ?_, ?_, ?_, ?_⟩
        · simpa using hI.len_eq
        · intro i hi
          rw [vAt_mk_set _ s _ _ _ hdlen i]
          split
          · rename_i hj
            subst hj
            simpa using hI.adv_flag _ hi
          · exact hI.adv_flag _ hi
        · intro e2 he2
          exact hI.net_dst e2 (Finset.mem_of_mem_erase he2)
        · intro e2 he2 sl ha vo hmsg
          obtain ⟨h1, h2⟩ := hI.net_notar e2 (Finset.mem_of_mem_erase he2) sl ha vo hmsg
          refine ⟨h1, ?_⟩
          rw [vAt_mk_set _ s _ _ _ hdlen vo]
          split
          · rename_i hj
            subst hj
            exact h2
          · exact h2
        · intro e2 he2 sl vo hmsg
          obtain ⟨h1, h2⟩ := hI.net_skip e2 (Finset.mem_of_mem_erase he2) sl vo hmsg
          refine ⟨h1, ?_⟩
          rw [vAt_mk_set _ s _ _ _ hdlen vo]
          split
          · rename_i hj
            subst hj
            exact h2
          · exact h2
        · intro e2 he2
          exact hI.net_nocert e2 (Finset.mem_of_mem_erase he2)
        · intro r sl h voters hp v hvmp
          rw [vAt_mk_set _ s _ _ _ hdlen r] at hp
          by_cases hr : r = d
          · rw [if_pos hr] at hp
            have hp2 : (if ((sl : Nat), h) = ((slot : Nat), (none : Option Nat)) then some (insert voter (((s.vAt d).vote_pool (slot, none)).getD ∅)) else (s.vAt d).vote_pool (sl, h)) = some voters := hp
            by_cases hk : ((sl : Nat), h) = ((slot : Nat), (none : Option Nat))
            · rw [if_pos hk] at hp2
              injection hp2 with hp3
              rw [← hp3] at hvmp
              rcases Finset.mem_insert.mp hvmp with hveq | hvm2
              · subst hveq
                refine ⟨hvn, ?_⟩
                rw [vAt_mk_set _ s _ _ _ hdlen v, hk]
                split
                · rename_i hj
                  subst hj
                  exact hvm0
                · exact hvm0
              · cases hpool : (s.vAt d).vote_pool (slot, none) with
                | none =>
                    rw [hpool] at hvm2
                    exact absurd hvm2 (by simp)
                | some old =>
                    rw [hpool] at hvm2
                    rw [Option.getD_some] at hvm2
                    obtain ⟨h1, h2⟩ := hI.pool_sound d slot none old hpool v hvm2
                    refine ⟨h1, ?_⟩
                    rw [vAt_mk_set _ s _ _ _ hdlen v, hk]
                    split
                    · rename_i hj
                      subst hj
                      exact h2
                    · exact h2
            · rw [if_neg hk] at hp2
              obtain ⟨h1, h2⟩ := hI.pool_sound d sl h voters hp2 v hvmp
              refine ⟨h1, ?_⟩
              rw [vAt_mk_set _ s _ _ _ hdlen v]
              split
              · rename_i hj
                subst hj
                exact h2
              · exact h2
          · rw [if_neg hr] at hp
            obtain ⟨h1, h2⟩ := hI.pool_sound r sl h voters hp v hvmp
            refine ⟨h1, ?_⟩
            rw [vAt_mk_set _ s _ _ _ hdlen v]
            split
            · rename_i hj
              subst hj
              exact h2
            · exact h2
        · intro v k hk
          rw [vAt_mk_set _ s _ _ _ hdlen v] at hk
          by_cases hvv : v = d
          · rw [if_pos hvv] at hk
            exact hI.votes_slot_pos d k hk
          · rw [if_neg hvv] at hk
            exact hI.votes_slot_pos v k hk
        · intro v k hk
          rw [vAt_mk_set _ s _ _ _ hdlen v] at hk ⊢
          by_cases hvv : v = d
          · rw [if_pos hvv] at hk ⊢
            exact hI.votes_shape d k hk
          · rw [if_neg hvv] at hk ⊢
            exact hI.votes_shape v k hk
        · intro v sl h1 h2 hk1 hk2 hn1 hn2
          rw [vAt_mk_set _ s _ _ _ hdlen v] at hk1 hk2
          by_cases hvv : v = d
          · rw [if_pos hvv] at hk1 hk2
            exact hI.votes_unique d sl h1 h2 hk1 hk2 hn1 hn2
          · rw [if_neg hvv] at hk1 hk2
            exact hI.votes_unique v sl h1 h2 hk1 hk2 hn1 hn2
        · intro sl h hgc
          have hgc2 : (if ((sl : Nat), h) = ((slot : Nat), (none : Option Nat)) then some (get_stake_for_voters { s with network := s.network.erase ⟨d, CertificateMessage.skipVote slot voter⟩ } (insert voter (((s.vAt d).vote_pool (slot, none)).getD ∅))) else s.global_certificates (sl, h)).isSome = true := hgc
          by_cases hk : ((sl : Nat), h) = ((slot : Nat), (none : Option Nat))
          · rw [Prod.mk.injEq] at hk
            rw [hk.1, hk.2]
            exact can_form_after_pool_insert hdlen _ _ (slot, none) voter (fun k => rfl) hform2
          · rw [if_neg hk] at hgc2
            exact can_form_after_pool_insert hdlen _ _ (slot, none) voter (fun k => rfl) (hI.cert_stake sl h hgc2)
      case isFalse hform =>
        injection hn with h2
        subst h2
        refine ⟨?_, hI.stake_eq, ?_, ?_, ?_, ?_, ?_, ?_, ?_, ?_, ?_, ?_⟩
        · simpa using hI.len_eq
        · intro i hi
          rw [vAt_mk_set _ s _ _ _ hdlen i]
          split
          · rename_i hj
            subst hj
            simpa using hI.adv_flag _ hi
          · exact hI.adv_flag _ hi
        · intro e2 he2
          exact hI.net_dst e2 (Finset.mem_of_mem_erase he2)
        · intro e2 he2 sl ha vo hmsg
          obtain ⟨h1, h2⟩ := hI.net_notar e2 (Finset.mem_of_mem_erase he2) sl ha vo hmsg
          refine ⟨h1, ?_⟩
          rw [vAt_mk_set _ s _ _ _ hdlen vo]
          split
          · rename_i hj
            subst hj
            exact h2
          · exact h2
        · intro e2 he2 sl vo hmsg
          obtain ⟨h1, h2⟩ := hI.net_skip e2 (Finset.mem_of_mem_erase he2) sl vo hmsg
          refine ⟨h1, ?_⟩
          rw [vAt_mk_set _ s _ _ _ hdlen vo]
          split
          · rename_i hj
            subst hj
            exact h2
          · exact h2
        · intro e2 he2
          exact hI.net_nocert e2 (Finset.mem_of_mem_erase he2)
        · intro r sl h voters hp v hvmp
          rw [vAt_mk_set _ s _ _ _ hdlen r] at hp
          by_cases hr : r = d
          · rw [if_pos hr] at hp
            have hp2 : (if ((sl : Nat), h) = ((slot : Nat), (none : Option Nat)) then some (insert voter (((s.vAt d).vote_pool (slot, none)).getD ∅)) else (s.vAt d).vote_pool (sl, h)) = some voters := hp
            by_cases hk : ((sl : Nat), h) = ((slot : Nat), (none : Option Nat))
            · rw [if_pos hk] at hp2
              injection hp2 with hp3
              rw [← hp3] at hvmp
              rcases Finset.mem_insert.mp hvmp with hveq | hvm2
              · subst hveq
                refine ⟨hvn, ?_⟩
                rw [vAt_mk_set _ s _ _ _ hdlen v, hk]
                split
                · rename_i hj
                  subst hj
                  exact hvm0
                · exact hvm0
              · cases hpool : (s.vAt d).vote_pool (slot, none) with
                | none =>
                    rw [hpool] at hvm2
                    exact absurd hvm2 (by simp)
                | some old =>
                    rw [hpool] at hvm2
                    rw [Option.getD_some] at hvm2
                    obtain ⟨h1, h2⟩ := hI.pool_sound d slot none old hpool v hvm2
                    refine ⟨h1, ?_⟩
                    rw [vAt_mk_set _ s _ _ _ hdlen v, hk]
                    split
                    · rename_i hj
                      subst hj
                      exact h2
                    · exact h2
            · rw [if_neg hk] at hp2
              obtain ⟨h1, h2⟩ := hI.pool_sound d sl h voters hp2 v hvmp
              refine ⟨h1, ?_⟩
              rw [vAt_mk_set _ s _ _ _ hdlen v]
              split
              · rename_i hj
                subst hj
                exact h2
              · exact h2
          · rw [if_neg hr] at hp
            obtain ⟨h1, h2⟩ := hI.pool_sound r sl h voters hp v hvmp
            refine ⟨h1, ?_⟩
            rw [vAt_mk_set _ s _ _ _ hdlen v]
            split
            · rename_i hj
              subst hj
              exact h2
            · exact h2
        · intro v k hk
          rw [vAt_mk_set _ s _ _ _ hdlen v] at hk
          by_cases hvv : v = d
          · rw [if_pos hvv] at hk
            exact hI.votes_slot_pos d k hk
          · rw [if_neg hvv] at hk
            exact hI.votes_slot_pos v k hk
        · intro v k hk
          rw [vAt_mk_set _ s _ _ _ hdlen v] at hk ⊢
          by_cases hvv : v = d
          · rw [if_pos hvv] at hk ⊢
            exact hI.votes_shape d k hk
          · rw [if_neg hvv] at hk ⊢
            exact hI.votes_shape v k hk
        · intro v sl h1 h2 hk1 hk2 hn1 hn2
          rw [vAt_mk_set _ s _ _ _ hdlen v] at hk1 hk2
          by_cases hvv : v = d
          · rw [if_pos hvv] at hk1 hk2
            exact hI.votes_unique d sl h1 h2 hk1 hk2 hn1 hn2
          · rw [if_neg hvv] at hk1 hk2
            exact hI.votes_unique v sl h1 h2 hk1 hk2 hn1 hn2
        · intro sl h hgc
          have hgc2 : (s.global_certificates (sl, h)).isSome = true := hgc
          exact can_form_after_pool_insert hdlen _ _ (slot, none) voter (fun k => rfl) (hI.cert_stake sl h hgc2)

end Cert

namespace Cert

/-- Preservation of the invariant by every generated action. -/
theorem inv_step {m : CertificateModel} {s s2 : CertificateState} {a : CertificateAction}
    (hI : Inv m s) (hg : Gen m s a) (hn : next m s a = some s2) : Inv m s2 := by
  cases a with
  | castNotarVote slot hash voter => exact inv_castNotar hI hg hn
  | castSkipVote slot voter => exact inv_castSkip hI hg hn
  | deliverMessage e => exact inv_deliver hI hg hn
  | adversaryEquivocate slot hash1 hash2 adversary => exact inv_equivocate hI hg hn

/-- The invariant holds in every reachable state of the certificate model. -/
theorem reach_inv {m : CertificateModel} {s : CertificateState} (h : Reach m s) : Inv m s := by
  induction h with
  | init => exact inv_init m
  | step hr hg hn ih => exact inv_step ih hg hn

/-- Elimination form of can_form_certificate. -/
theorem can_form_elim {s : CertificateState} {slot : Nat} {h : Option Nat}
    (hc : can_form_certificate s slot h = true) :
    ∃ voters, (s.vAt 0).vote_pool (slot, h) = some voters ∧
      TOTAL_STAKE * NOTARIZE_THRESHOLD_PERCENT / 100 ≤ get_stake_for_voters s voters := by
  unfold can_form_certificate at hc
  cases hp : (s.vAt 0).vote_pool (slot, h) with
  | none => rw [hp] at hc; exact absurd hc (by simp)
  | some voters =>
      rw [hp] at hc
      exact ⟨voters, rfl, by simpa using hc⟩

/-- In an invariant state every voter set has stake at most its size times the
per-validator stake. -/
theorem stake_le_card {m : CertificateModel} {s : CertificateState} (hI : Inv m s)
    (voters : Finset Nat) :
    get_stake_for_voters s voters ≤ voters.card * (TOTAL_STAKE / m.validator_count) := by
  unfold get_stake_for_voters
  calc Finset.sum voters (fun v => (s.stake_distribution v).getD 0)
      ≤ Finset.sum voters (fun _ => TOTAL_STAKE / m.validator_count) := by
        refine Finset.sum_le_sum ?_
        intro v hv
        rw [hI.stake_eq]
        by_cases hvn : v < m.validator_count
        · simp [hvn]
        · simp [hvn]
    _ = voters.card * (TOTAL_STAKE / m.validator_count) := by
        rw [Finset.sum_const, smul_eq_mul]

/-- In every invariant state with adversary stake below the threshold, the
global certificate ledger certifies at most one hash (or the skip marker) per
slot. -/
theorem cert_uniqueness_of_inv {m : CertificateModel} {s : CertificateState}
    (hI : Inv m s)
    (hadv : m.adversary_count * (TOTAL_STAKE / m.validator_count) <
      TOTAL_STAKE * NOTARIZE_THRESHOLD_PERCENT / 100) :
    ∀ slot h1 h2, (s.global_certificates (slot, h1)).isSome = true →
      (s.global_certificates (slot, h2)).isSome = true → h1 = h2 := by
  intro slot h1 h2 hg1 hg2
  by_contra hne
  obtain ⟨v1, hp1, hs1⟩ := can_form_elim (hI.cert_stake slot h1 hg1)
  obtain ⟨v2, hp2, hs2⟩ := can_form_elim (hI.cert_stake slot h2 hg2)
  have hthr : TOTAL_STAKE * NOTARIZE_THRESHOLD_PERCENT / 100 = 600 := by decide
  have hmem1 := hI.pool_sound 0 slot h1 v1 hp1
  have hmem2 := hI.pool_sound 0 slot h2 v2 hp2
  have hbound : ∀ h voters, ¬ normalHash h →
      (∀ v ∈ voters, v < m.validator_count ∧ (slot, h) ∈ (s.vAt v).votes_cast) →
      get_stake_for_voters s voters < 600 := by
    intro h voters hnn hmem
    have hsubA : ∀ v ∈ voters, v < m.adversary_count := by
      intro v hv
      obtain ⟨hvn, hvk⟩ := hmem v hv
      rcases hI.votes_shape v (slot, h) hvk with hnorm | ⟨hadvf, -⟩
      · exact absurd hnorm hnn
      · exact (hI.adv_flag v hvn).mp hadvf
    have hcard : voters.card ≤ m.adversary_count := by
      have hsub : voters ⊆ Finset.range m.adversary_count :=
        fun v hv => Finset.mem_range.mpr (hsubA v hv)
      simpa using Finset.card_le_card hsub
    calc get_stake_for_voters s voters
        ≤ voters.card * (TOTAL_STAKE / m.validator_count) := stake_le_card hI voters
      _ ≤ m.adversary_count * (TOTAL_STAKE / m.validator_count) :=
          Nat.mul_le_mul_right _ hcard
      _ < 600 := by rw [hthr] at hadv; exact hadv
  rw [hthr] at hs1 hs2
  by_cases hnorm1 : normalHash h1
  · by_cases hnorm2 : normalHash h2
    · have hdisj : Disjoint v1 v2 := by
        rw [Finset.disjoint_left]
        intro v hv1 hv2
        exact hne (hI.votes_unique v slot h1 h2 (hmem1 v hv1).2 (hmem2 v hv2).2 hnorm1 hnorm2)
      have hsum : get_stake_for_voters s v1 + get_stake_for_voters s v2 =
          get_stake_for_voters s (v1 ∪ v2) := (Finset.sum_union hdisj).symm
      have hcard : (v1 ∪ v2).card ≤ m.validator_count := by
        have hsub : v1 ∪ v2 ⊆ Finset.range m.validator_count := by
          intro v hv
          rcases Finset.mem_union.mp hv with hv | hv
          · exact Finset.mem_range.mpr (hmem1 v hv).1
          · exact Finset.mem_range.mpr (hmem2 v hv).1
        simpa using Finset.card_le_card hsub
      have hle : get_stake_for_voters s (v1 ∪ v2) ≤ TOTAL_STAKE := by
        calc get_stake_for_voters s (v1 ∪ v2)
            ≤ (v1 ∪ v2).card * (TOTAL_STAKE / m.validator_count) := stake_le_card hI _
          _ ≤ m.validator_count * (TOTAL_STAKE / m.validator_count) :=
              Nat.mul_le_mul_right _ hcard
          _ ≤ TOTAL_STAKE := by
              rw [mul_comm]
              exact Nat.div_mul_le_self TOTAL_STAKE m.validator_count
      have hfinal : (600 : Nat) + 600 ≤ TOTAL_STAKE := by
        calc (600 : Nat) + 600 ≤ get_stake_for_voters s v1 + get_stake_for_voters s v2 :=
              Nat.add_le_add hs1 hs2
          _ = get_stake_for_voters s (v1 ∪ v2) := hsum
          _ ≤ TOTAL_STAKE := hle
      exact absurd hfinal (by decide)
    · have := hbound h2 v2 hnorm2 hmem2
      omega
  · have := hbound h1 v1 hnorm1 hmem1
    omega

end Cert

namespace ModelUtil

/-- An option that is some equals some of its getD. -/
theorem eq_some_getD {α : Type} {o : Option α} (d : α) (h : o.isSome = true) :
    o = some (o.getD d) := by
  cases o with
  | none => simp at h
  | some a => rfl

end ModelUtil

namespace Cert

/-- In every invariant state, a non-adversary validator has at most one vote
per slot. -/
theorem honest_vote_unique_of_inv {m : CertificateModel} {s : CertificateState} (hI : Inv m s) :
    ∀ v, (s.vAt v).is_adversary = false →
      ∀ slot h1 h2, (slot, h1) ∈ (s.vAt v).votes_cast →
        (slot, h2) ∈ (s.vAt v).votes_cast → h1 = h2 := by
  intro v hadv slot h1 h2 hk1 hk2
  have hn1 : normalHash h1 := by
    rcases hI.votes_shape v (slot, h1) hk1 with h | ⟨ha, -⟩
    · exact h
    · rw [hadv] at ha
      exact absurd ha (by simp)
  have hn2 : normalHash h2 := by
    rcases hI.votes_shape v (slot, h2) hk2 with h | ⟨ha, -⟩
    · exact h
    · rw [hadv] at ha
      exact absurd ha (by simp)
  exact hI.votes_unique v slot h1 h2 hk1 hk2 hn1 hn2

/-- The configuration used by certificate.rs run_formal_verification. -/
def certModel4 : CertificateModel := ⟨4, 3, 1⟩

/-- Its initial state. -/
def certInit4 : CertificateState := initState 4 1

/-- The state after the adversary equivocates in slot 1. -/
def certEquivState : CertificateState :=
  (next certModel4 certInit4 (CertificateAction.adversaryEquivocate 1 1001 1002 0)).getD certInit4

/-- The equivocation action is generated in the initial state. -/
theorem certEquiv_gen :
    Gen certModel4 certInit4 (CertificateAction.adversaryEquivocate 1 1001 1002 0) :=
  ⟨by decide, by decide, by decide, by decide, by decide⟩

/-- The equivocation step succeeds. -/
theorem certEquiv_next :
    next certModel4 certInit4 (CertificateAction.adversaryEquivocate 1 1001 1002 0) =
      some certEquivState :=
  ModelUtil.eq_some_getD certInit4 (by decide)

/-- The post-equivocation state is reachable. -/
theorem certEquivState_reach : Reach certModel4 certEquivState :=
  Reach.step Reach.init certEquiv_gen certEquiv_next

end Cert

namespace Safety

/-- Total stake constant of safety.rs. -/
def TOTAL_STAKE : Nat := 1000

/-- Certificate threshold percent of safety.rs. -/
def CERTIFICATE_THRESHOLD_PERCENT : Nat := 60

/-- SafetyMessage of safety.rs. -/
inductive SafetyMessage where
  | blockProposal (slot hash proposer : Nat)
  | vote (slot hash voter : Nat)
  | conflictingVote (slot hash voter : Nat)
  | certificateFormed (slot hash stake : Nat)
deriving DecidableEq

/-- MessageInTransit of safety.rs. -/
structure MessageInTransit where
  dst : Nat
  msg : SafetyMessage
deriving DecidableEq

/-- SafetyAction of safety.rs. -/
inductive SafetyAction where
  | proposeBlock (slot proposer : Nat)
  | deliverMessage (e : MessageInTransit)
  | createConflictingVote (slot byzantine_validator : Nat)
  | formCertificate (slot hash stake : Nat)
  | advanceSlot
deriving DecidableEq

/-- ValidatorState of safety.rs.  votes_cast is a BTreeMap with only true
values, embedded as the Finset of keys; the slot-keyed BTreeMaps are embedded
pointwise. -/
structure ValidatorState where
  is_byzantine : Bool
  is_responsive : Bool
  votes_cast : Finset (Nat × Nat)
  vote_pool : Nat × Nat → Option (Finset Nat)
  certificates : Nat → Option Nat
  finalized_chain : Nat → Option Nat
  current_slot : Nat

instance : Inhabited ValidatorState :=
  ⟨{ is_byzantine := false, is_responsive := false, votes_cast := ∅,
     vote_pool := fun _ => none, certificates := fun _ => none,
     finalized_chain := fun _ => none, current_slot := 0 }⟩

/-- SafetyState of safety.rs.  The safety_violations field is omitted:
check_safety_violations scans pairs of entries of BTreeMaps keyed by slot, and
two entries of one such map never share a slot, so the scan can never insert
anything and the set stays empty in every state. -/
structure SafetyState where
  network : Finset MessageInTransit
  validators : List ValidatorState
  current_slot : Nat
  stake_distribution : Nat → Option Nat
  block_proposals : Nat → Option Nat
  global_certificates : Nat → Option Nat

/-- SafetyModel of safety.rs. -/
structure SafetyModel where
  validator_count : Nat
  max_slot : Nat
  byzantine_count : Nat

/-- Validator access, defaulting out of range. -/
def SafetyState.vAt (s : SafetyState) (i : Nat) : ValidatorState :=
  s.validators.getD i default

/-- SafetyState::new. -/
def initState (validator_count byzantine_count : Nat) : SafetyState :=
  let stake_per_validator := TOTAL_STAKE / validator_count
  { network := ∅
    validators := (List.range validator_count).map (fun i =>
      { is_byzantine := decide (i < byzantine_count)
        is_responsive := true
        votes_cast := ∅
        vote_pool := fun _ => none
        certificates := fun _ => none
        finalized_chain := fun _ => none
        current_slot := 0 })
    current_slot := 0
    stake_distribution := fun i =>
      if i < validator_count then some stake_per_validator else none
    block_proposals := fun _ => none
    global_certificates := fun _ => none }

/-- The filtered stake sum of safety.rs: non-Byzantine, responsive voters with
a stake entry. -/
def honest_stake (s : SafetyState) (voters : Finset Nat) : Nat :=
  Finset.sum
    (voters.filter (fun v => (s.vAt v).is_byzantine = false ∧ (s.vAt v).is_responsive = true))
    (fun v => (s.stake_distribution v).getD 0)

/-- SafetyState::can_certify: reads the vote pool of validator 0 only. -/
def can_certify (s : SafetyState) (slot hash : Nat) : Bool :=
  match (s.vAt 0).vote_pool (slot, hash) with
  | some voters =>
      decide (TOTAL_STAKE * CERTIFICATE_THRESHOLD_PERCENT / 100 ≤ honest_stake s voters)
  | none => false

/-- Broadcast to all validators 0..n. -/
def broadcast (n : Nat) (msg : SafetyMessage) (net : Finset MessageInTransit) :
    Finset MessageInTransit :=
  net ∪ (Finset.range n).image (fun i => ⟨i, msg⟩)

/-- Broadcast to all validators except the proposer. -/
def broadcast_except (n p : Nat) (msg : SafetyMessage) (net : Finset MessageInTransit) :
    Finset MessageInTransit :=
  net ∪ ((Finset.range n).filter (fun i => i ≠ p)).image (fun i => ⟨i, msg⟩)

/-- SafetyModel::next_state.  Arms that leave the cloned validator unchanged
write it back unchanged, so the state only loses the delivered envelope; in the
CertificateFormed arm the loop updates every validator and the stale clone of
the recipient is then written back over the recipient entry, exactly as the
Rust code does. -/
def next (m : SafetyModel) (s : SafetyState) (a : SafetyAction) : Option SafetyState :=
  match a with
  | .proposeBlock slot proposer =>
      let block_hash := slot * 1000 + proposer
      some { s with
        block_proposals := fun k => if k = slot then some block_hash else s.block_proposals k
        network := broadcast_except m.validator_count proposer
          (.blockProposal slot block_hash proposer) s.network }
  | .deliverMessage e =>
      if e ∈ s.network then
        let s1 := { s with network := s.network.erase e }
        let v := s.vAt e.dst
        match e.msg with
        | .blockProposal slot hash _ =>
            if v.is_responsive then
              if (slot, hash) ∈ v.votes_cast then some s1
              else
                let v2 := { v with votes_cast := insert (slot, hash) v.votes_cast }
                some { s1 with
                  network := broadcast m.validator_count (.vote slot hash e.dst)
                    (s.network.erase e)
                  validators := s.validators.set e.dst v2 }
            else some s1
        | .vote slot hash voter =>
            let v2 := { v with vote_pool := fun k => if k = (slot, hash) then some (insert voter ((v.vote_pool (slot, hash)).getD ∅)) else v.vote_pool k }
            if can_certify s1 slot hash then
              let v3 := { v2 with
                certificates := fun k => if k = slot then some hash else v2.certificates k
                finalized_chain := fun k => if k = slot then some hash else v2.finalized_chain k }
              some { s1 with validators := s.validators.set e.dst v3 }
            else
              some { s1 with validators := s.validators.set e.dst v2 }
        | .conflictingVote slot hash voter =>
            let v2 := { v with vote_pool := fun k => if k = (slot, hash) then some (insert voter ((v.vote_pool (slot, hash)).getD ∅)) else v.vote_pool k }
            if can_certify s1 slot hash then
              let v3 := { v2 with
                certificates := fun k => if k = slot then some hash else v2.certificates k
                finalized_chain := fun k => if k = slot then some hash else v2.finalized_chain k }
              some { s1 with validators := s.validators.set e.dst v3 }
            else
              some { s1 with validators := s.validators.set e.dst v2 }
        | .certificateFormed slot hash _ =>
            let updated := s.validators.map (fun w => { w with
              certificates := fun k => if k = slot then some hash else w.certificates k
              finalized_chain := fun k => if k = slot then some hash else w.finalized_chain k })
            some { s1 with
              global_certificates := fun k => if k = slot then some hash else s.global_certificates k
              validators := updated.set e.dst v }
      else none
  | .createConflictingVote slot byzantine_validator =>
      some { s with network := insert ⟨byzantine_validator, .conflictingVote slot (slot * 1000 + 999) byzantine_validator⟩ s.network }
  | .formCertificate slot hash stake =>
      some { s with network := insert ⟨0, .certificateFormed slot hash stake⟩ s.network }
  | .advanceSlot =>
      some { s with
        current_slot := s.current_slot + 1
        validators := s.validators.map (fun w => { w with current_slot := s.current_slot + 1 }) }

/-- SafetyModel::actions, as an enabledness relation. -/
def Gen (m : SafetyModel) (s : SafetyState) : SafetyAction → Prop
  | .deliverMessage e => e ∈ s.network
  | .proposeBlock slot proposer =>
      s.current_slot ≤ slot ∧ slot ≤ m.max_slot ∧ proposer < m.validator_count ∧
        s.block_proposals slot = none
  | .createConflictingVote slot byzantine_validator =>
      1 ≤ slot ∧ slot ≤ m.max_slot ∧ byzantine_validator < m.byzantine_count
  | .formCertificate slot hash stake =>
      (∃ i, i < s.validators.length ∧ ∃ voters,
        (s.vAt i).vote_pool (slot, hash) = some voters ∧ stake = honest_stake s voters) ∧
      TOTAL_STAKE * CERTIFICATE_THRESHOLD_PERCENT / 100 ≤ stake ∧
      s.global_certificates slot = none
  | .advanceSlot => s.current_slot < m.max_slot

/-- States reachable from the initial state of the safety model. -/
inductive Reach (m : SafetyModel) : SafetyState → Prop where
  | init : Reach m (initState m.validator_count m.byzantine_count)
  | step {s a s2} : Reach m s → Gen m s a → next m s a = some s2 → Reach m s2

end Safety

namespace ModelUtil

/-- getD through map. -/
theorem getD_map {α β : Type} (f : α → β) (l : List α) (j : Nat) (d : β) :
    (l.map f).getD j d = ((l[j]?).map f).getD d := by
  simp [List.getD_eq_getElem?_getD, List.getElem?_map]

/-- getD after a possibly out-of-range set. -/
theorem getD_set_general {α : Type} (l : List α) (i j : Nat) (v d : α) :
    (l.set i v).getD j d =
      if j = i ∧ i < l.length then v else l.getD j d := by
  by_cases hj : j = i
  · subst hj
    by_cases hl : j < l.length
    · rw [if_pos ⟨rfl, hl⟩]
      exact Cert.getD_set_self l j v d hl
    · rw [if_neg (fun hand => hl hand.2), List.set_eq_of_length_le (Nat.le_of_not_lt hl)]
  · rw [if_neg (fun hand => hj hand.1)]
    exact Cert.getD_set_other l i j v d hj

end ModelUtil

namespace Safety

/-- Membership in a safety broadcast. -/
theorem mem_broadcast_safety {n : Nat} {msg : SafetyMessage} {net : Finset MessageInTransit}
    {e : MessageInTransit} :
    e ∈ broadcast n msg net ↔ e ∈ net ∨ (e.dst < n ∧ e.msg = msg) := by
  cases e with
  | mk d mg =>
    simp only [broadcast, Finset.mem_union, Finset.mem_image, Finset.mem_range]
    constructor
    · rintro (h | ⟨i, hi, he⟩)
      · exact Or.inl h
      · cases he
        exact Or.inr ⟨hi, rfl⟩
    · rintro (h | ⟨hd, hm⟩)
      · exact Or.inl h
      · cases hm
        exact Or.inr ⟨d, hd, rfl⟩

/-- Membership in a safety broadcast that excludes the proposer. -/
theorem mem_broadcast_except {n p : Nat} {msg : SafetyMessage} {net : Finset MessageInTransit}
    {e : MessageInTransit} :
    e ∈ broadcast_except n p msg net ↔ e ∈ net ∨ (e.dst < n ∧ e.dst ≠ p ∧ e.msg = msg) := by
  cases e with
  | mk d mg =>
    simp only [broadcast_except, Finset.mem_union, Finset.mem_image, Finset.mem_filter,
      Finset.mem_range]
    constructor
    · rintro (h | ⟨i, ⟨hi, hip⟩, he⟩)
      · exact Or.inl h
      · cases he
        exact Or.inr ⟨hi, hip, rfl⟩
    · rintro (h | ⟨hd, hdp, hm⟩)
      · exact Or.inl h
      · cases hm
        exact Or.inr ⟨d, ⟨hd, hdp⟩, rfl⟩

/-- Inductive invariant of the safety model: block-proposal envelopes carry the
recorded proposal hash for their slot, and every cast vote is for the recorded
proposal hash of its slot. -/
structure SInv (s : SafetyState) : Prop where
  prop_msgs : ∀ e ∈ s.network, ∀ slot hash proposer,
    e.msg = SafetyMessage.blockProposal slot hash proposer →
    s.block_proposals slot = some hash
  votes_prop : ∀ v, ∀ k ∈ (s.vAt v).votes_cast, s.block_proposals k.1 = some k.2

/-- The validator states of the initial safety state. -/
theorem vAt_init_votes_safety (n B i : Nat) : ((initState n B).vAt i).votes_cast = ∅ := by
  unfold initState SafetyState.vAt
  rw [ModelUtil.getD_map]
  cases hj : (List.range n)[i]? with
  | none => rfl
  | some a => rfl

/-- The invariant holds in the initial safety state. -/
theorem sinv_init (n B : Nat) : SInv (initState n B) := by
  constructor
  · intro e he
    simp [initState] at he
  · intro v k hk
    rw [vAt_init_votes_safety] at hk
    exact absurd hk (by simp)

/-- Preservation of the safety invariant. -/
theorem sinv_step {m : SafetyModel} {s s2 : SafetyState} {a : SafetyAction}
    (hI : SInv s) (hg : Gen m s a) (hn : next m s a = some s2) : SInv s2 := by
  cases a with
  | proposeBlock slot proposer =>
      obtain ⟨-, -, -, hnone⟩ := hg
      simp only [next] at hn
      injection hn with h2
      subst h2
      constructor
      · intro e he sl ha pr hmsg
        rcases mem_broadcast_except.mp he with he | ⟨-, -, hm⟩
        · have hold := hI.prop_msgs e he sl ha pr hmsg
          by_cases hsl : sl = slot
          · rw [hsl] at hold
            rw [hold] at hnone
            exact absurd hnone (by simp)
          · show (if sl = slot then some (slot * 1000 + proposer) else s.block_proposals sl) =
              some ha
            rw [if_neg hsl]
            exact hold
        · rw [hm] at hmsg
          injection hmsg with e1 e2 e3
          subst e1
          subst e2
          show (if slot = slot then some (slot * 1000 + proposer) else s.block_proposals slot) =
            some (slot * 1000 + proposer)
          rw [if_pos rfl]
      · intro v k hk
        have hold := hI.votes_prop v k hk
        by_cases hsl : k.1 = slot
        · rw [hsl] at hold
          rw [hold] at hnone
          exact absurd hnone (by simp)
        · show (if k.1 = slot then some (slot * 1000 + proposer) else s.block_proposals k.1) =
            some k.2
          rw [if_neg hsl]
          exact hold
  | createConflictingVote slot byz =>
      simp only [next] at hn
      injection hn with h2
      subst h2
      constructor
      · intro e he sl ha pr hmsg
        rcases Finset.mem_insert.mp he with he | he
        · rw [he] at hmsg
          exact absurd hmsg (by simp)
        · exact hI.prop_msgs e he sl ha pr hmsg
      · exact hI.votes_prop
  | formCertificate slot hash stake =>
      simp only [next] at hn
      injection hn with h2
      subst h2
      constructor
      · intro e he sl ha pr hmsg
        rcases Finset.mem_insert.mp he with he | he
        · rw [he] at hmsg
          exact absurd hmsg (by simp)
        · exact hI.prop_msgs e he sl ha pr hmsg
      · exact hI.votes_prop
  | advanceSlot =>
      simp only [next] at hn
      injection hn with h2
      subst h2
      constructor
      · exact fun e he => hI.prop_msgs e he
      · intro v k hk
        refine hI.votes_prop v k ?_
        unfold SafetyState.vAt at hk ⊢
        rw [ModelUtil.getD_map] at hk
        cases hj : s.validators[v]? with
        | none =>
            rw [hj] at hk
            exact absurd hk (by simp [default])
        | some a =>
            rw [hj] at hk
            rw [List.getD_eq_getElem?_getD, hj]
            exact hk
  | deliverMessage e =>
      have hg2 : e ∈ s.network := hg
      obtain ⟨d, msg⟩ := e
      cases msg with
      | blockProposal slot hash proposer =>
          simp only [next] at hn
          rw [if_pos hg2] at hn
          split at hn
          case isFalse hresp =>
            injection hn with h2
            subst h2
            exact ⟨fun e2 he2 => hI.prop_msgs e2 (Finset.mem_of_mem_erase he2),
              hI.votes_prop⟩
          case isTrue hresp =>
            split at hn
            case isTrue hvoted =>
              injection hn with h2
              subst h2
              exact ⟨fun e2 he2 => hI.prop_msgs e2 (Finset.mem_of_mem_erase he2),
                hI.votes_prop⟩
            case isFalse hvoted =>
              injection hn with h2
              subst h2
              have hph : s.block_proposals slot = some hash :=
                hI.prop_msgs _ hg2 slot hash proposer rfl
              constructor
              · intro e2 he2 sl ha pr hmsg
                rcases mem_broadcast_safety.mp he2 with he2 | ⟨-, hm⟩
                · exact hI.prop_msgs e2 (Finset.mem_of_mem_erase he2) sl ha pr hmsg
                · rw [hm] at hmsg
                  exact absurd hmsg (by simp)
              · intro v k hk
                unfold SafetyState.vAt at hk
                rw [ModelUtil.getD_set_general] at hk
                split at hk
                · rcases Finset.mem_insert.mp hk with hk | hk
                  · rw [hk]
                    exact hph
                  · exact hI.votes_prop d k hk
                · exact hI.votes_prop v k hk
      | vote slot hash voter =>
          simp only [next] at hn
          rw [if_pos hg2] at hn
          split at hn <;>
          · injection hn with h2
            subst h2
            constructor
            · intro e2 he2 sl ha pr hmsg
              exact hI.prop_msgs e2 (Finset.mem_of_mem_erase he2) sl ha pr hmsg
            · intro v k hk
              unfold SafetyState.vAt at hk
              rw [ModelUtil.getD_set_general] at hk
              split at hk
              · exact hI.votes_prop d k hk
              · exact hI.votes_prop v k hk
      | conflictingVote slot hash voter =>
          simp only [next] at hn
          rw [if_pos hg2] at hn
          split at hn <;>
          · injection hn with h2
            subst h2
            constructor
            · intro e2 he2 sl ha pr hmsg
              exact hI.prop_msgs e2 (Finset.mem_of_mem_erase he2) sl ha pr hmsg
            · intro v k hk
              unfold SafetyState.vAt at hk
              rw [ModelUtil.getD_set_general] at hk
              split at hk
              · exact hI.votes_prop d k hk
              · exact hI.votes_prop v k hk
      | certificateFormed slot hash stake =>
          simp only [next] at hn
          rw [if_pos hg2] at hn
          injection hn with h2
          subst h2
          constructor
          · intro e2 he2 sl ha pr hmsg
            exact hI.prop_msgs e2 (Finset.mem_of_mem_erase he2) sl ha pr hmsg
          · intro v k hk
            unfold SafetyState.vAt at hk
            rw [ModelUtil.getD_set_general] at hk
            split at hk
            · exact hI.votes_prop d k hk
            · rw [ModelUtil.getD_map] at hk
              cases hj : s.validators[v]? with
              | none =>
                  rw [hj] at hk
                  exact absurd hk (by simp [default])
              | some a =>
                  rw [hj] at hk
                  refine hI.votes_prop v k ?_
                  unfold SafetyState.vAt
                  rw [List.getD_eq_getElem?_getD, hj]
                  exact hk

/-- The invariant holds in every reachable state of the safety model. -/
theorem reach_sinv {m : SafetyModel} {s : SafetyState} (h : Reach m s) : SInv s := by
  induction h with
  | init => exact sinv_init m.validator_count m.byzantine_count
  | step hr hg hn ih => exact sinv_step ih hg hn

end Safety

namespace Safety

/-- Delivering a present envelope always has a successor. -/
theorem next_deliver_isSome (m : SafetyModel) (s : SafetyState) {e : MessageInTransit}
    (he : e ∈ s.network) :
    (next m s (SafetyAction.deliverMessage e)).isSome = true := by
  obtain ⟨d, msg⟩ := e
  simp only [next, if_pos he]
  cases msg <;> (repeat' split) <;> rfl

/-- The safety transition function has no successor exactly for delivery of an
envelope that is not in the network. -/
theorem next_none_iff (m : SafetyModel) (s : SafetyState) (a : SafetyAction) :
    next m s a = none ↔
      ∃ e, a = SafetyAction.deliverMessage e ∧ e ∉ s.network := by
  cases a with
  | proposeBlock slot proposer => simp [next]
  | createConflictingVote slot byz => simp [next]
  | formCertificate slot hash stake => simp [next]
  | advanceSlot => simp [next]
  | deliverMessage e =>
      by_cases he : e ∈ s.network
      · constructor
        · intro h
          have hs := next_deliver_isSome m s he
          rw [h] at hs
          exact absurd hs (by simp)
        · rintro ⟨e2, he2, hne⟩
          injection he2 with he3
          exact absurd (he3 ▸ he) hne
      · constructor
        · intro h
          exact ⟨e, rfl, he⟩
        · intro h
          simp [next, if_neg he]

/-- BlockProposal dispatch at a responsive recipient on a reachable state:
the recipient casts and broadcasts a vote exactly when it has no recorded vote
for the slot. -/
theorem blockProposal_cast_iff {m : SafetyModel} {s : SafetyState} (hR : Reach m s)
    {d slot hash proposer : Nat}
    (he : (⟨d, SafetyMessage.blockProposal slot hash proposer⟩ : MessageInTransit) ∈ s.network)
    (hdlen : d < s.validators.length)
    (hresp : (s.vAt d).is_responsive = true) :
    ∃ s2, next m s (SafetyAction.deliverMessage
        ⟨d, SafetyMessage.blockProposal slot hash proposer⟩) = some s2 ∧
      ((∀ h, (slot, h) ∉ (s.vAt d).votes_cast) →
        (s2.vAt d).votes_cast = insert (slot, hash) (s.vAt d).votes_cast ∧
        s2.network = broadcast m.validator_count (SafetyMessage.vote slot hash d)
          (s.network.erase ⟨d, SafetyMessage.blockProposal slot hash proposer⟩)) ∧
      ((∃ h, (slot, h) ∈ (s.vAt d).votes_cast) →
        (s2.vAt d).votes_cast = (s.vAt d).votes_cast ∧
        s2.network = s.network.erase ⟨d, SafetyMessage.blockProposal slot hash proposer⟩) := by
  have hI := reach_sinv hR
  by_cases hvoted : (slot, hash) ∈ (s.vAt d).votes_cast
  · refine ⟨{ s with network := s.network.erase ⟨d, SafetyMessage.blockProposal slot hash proposer⟩ }, ?_, ?_, ?_⟩
    · simp only [next]
      rw [if_pos he, if_pos hresp, if_pos hvoted]
    · intro hno
      exact absurd hvoted (hno hash)
    · intro hyes
      exact ⟨rfl, rfl⟩
  · refine ⟨{ s with
        network := broadcast m.validator_count (SafetyMessage.vote slot hash d) (s.network.erase ⟨d, SafetyMessage.blockProposal slot hash proposer⟩)
        validators := s.validators.set d { s.vAt d with votes_cast := insert (slot, hash) (s.vAt d).votes_cast } }, ?_, ?_, ?_⟩
    · simp only [next]
      rw [if_pos he, if_pos hresp, if_neg hvoted]
    · intro hno
      constructor
      · show (SafetyState.vAt _ d).votes_cast = insert (slot, hash) (s.vAt d).votes_cast
        unfold SafetyState.vAt
        rw [ModelUtil.getD_set_general]
        rw [if_pos ⟨rfl, hdlen⟩]
      · rfl
    · rintro ⟨h, hm⟩
      have hph : s.block_proposals slot = some h := hI.votes_prop d (slot, h) hm
      have hph2 : s.block_proposals slot = some hash :=
        hI.prop_msgs _ he slot hash proposer rfl
      rw [hph] at hph2
      injection hph2 with hh
      rw [hh] at hm
      exact absurd hm hvoted

/-- The safety configuration of run_formal_verification. -/
def safetyModel4 : SafetyModel := ⟨4, 3, 1⟩

/-- Its initial state. -/
def sInit : SafetyState := initState 4 1

/-- State after proposing a block for slot 1 by validator 0. -/
def sP1 : SafetyState :=
  (next safetyModel4 sInit (SafetyAction.proposeBlock 1 0)).getD sInit

/-- The conflicting-vote envelope created by CreateConflictingVote for slot 1 by
Byzantine validator 0. -/
def cEnv : MessageInTransit := ⟨0, SafetyMessage.conflictingVote 1 1999 0⟩

/-- Path that delivers the same envelope twice: create, deliver, re-create,
deliver again. -/
def sC1 : SafetyState :=
  (next safetyModel4 sInit (SafetyAction.createConflictingVote 1 0)).getD sInit

def sC2 : SafetyState :=
  (next safetyModel4 sC1 (SafetyAction.deliverMessage cEnv)).getD sC1

def sC3 : SafetyState :=
  (next safetyModel4 sC2 (SafetyAction.createConflictingVote 1 0)).getD sC2

def sC4 : SafetyState :=
  (next safetyModel4 sC3 (SafetyAction.deliverMessage cEnv)).getD sC3

theorem sP1_next : next safetyModel4 sInit (SafetyAction.proposeBlock 1 0) = some sP1 :=
  ModelUtil.eq_some_getD sInit (by decide)

theorem sP1_gen : Gen safetyModel4 sInit (SafetyAction.proposeBlock 1 0) :=
  ⟨by decide, by decide, by decide, by decide⟩

theorem sP1_reach : Reach safetyModel4 sP1 :=
  Reach.step Reach.init sP1_gen sP1_next

theorem sC1_next : next safetyModel4 sInit (SafetyAction.createConflictingVote 1 0) = some sC1 :=
  ModelUtil.eq_some_getD sInit (by decide)

theorem sC1_gen : Gen safetyModel4 sInit (SafetyAction.createConflictingVote 1 0) :=
  ⟨by decide, by decide, by decide⟩

theorem sC2_next : next safetyModel4 sC1 (SafetyAction.deliverMessage cEnv) = some sC2 :=
  ModelUtil.eq_some_getD sC1 (by decide)

theorem sC2_gen : Gen safetyModel4 sC1 (SafetyAction.deliverMessage cEnv) := by
  show cEnv ∈ sC1.network
  decide

theorem sC3_next : next safetyModel4 sC2 (SafetyAction.createConflictingVote 1 0) = some sC3 :=
  ModelUtil.eq_some_getD sC2 (by decide)

theorem sC3_gen : Gen safetyModel4 sC2 (SafetyAction.createConflictingVote 1 0) :=
  ⟨by decide, by decide, by decide⟩

theorem sC4_next : next safetyModel4 sC3 (SafetyAction.deliverMessage cEnv) = some sC4 :=
  ModelUtil.eq_some_getD sC3 (by decide)

theorem sC4_gen : Gen safetyModel4 sC3 (SafetyAction.deliverMessage cEnv) := by
  show cEnv ∈ sC3.network
  decide

theorem sC4_reach : Reach safetyModel4 sC4 :=
  Reach.step
    (Reach.step
      (Reach.step
        (Reach.step Reach.init sC1_gen sC1_next)
        sC2_gen sC2_next)
      sC3_gen sC3_next)
    sC4_gen sC4_next

end Safety

namespace Live

/-- Fast path threshold percent of liveness.rs. -/
def FAST_PATH_THRESHOLD_PERCENT : Nat := 80

/-- Slow path threshold percent of liveness.rs. -/
def SLOW_PATH_THRESHOLD_PERCENT : Nat := 60

/-- Total stake constant of liveness.rs. -/
def TOTAL_STAKE : Nat := 1000

/-- LivenessMessage of liveness.rs. -/
inductive LivenessMessage where
  | blockProposal (slot hash proposer : Nat)
  | notarVote (slot hash voter : Nat)
  | finalVote (slot voter : Nat)
  | timeoutEvent (slot validator : Nat)
deriving DecidableEq

/-- MessageInTransit of liveness.rs. -/
structure MessageInTransit where
  dst : Nat
  msg : LivenessMessage
deriving DecidableEq

/-- LivenessAction of liveness.rs. -/
inductive LivenessAction where
  | proposeBlock (slot proposer : Nat)
  | deliverMessage (e : MessageInTransit)
  | triggerTimeout (slot validator : Nat)
  | advanceSlot
deriving DecidableEq

/-- ValidatorState of liveness.rs. -/
structure ValidatorState where
  is_responsive : Bool
  votes_cast : Finset (Nat × Option Nat)
  vote_pool : Nat × Option Nat → Option (Finset Nat)
  notarized_slots : Nat → Option Nat
  finalized_slots : Nat → Option Nat
  current_slot : Nat

instance : Inhabited ValidatorState :=
  ⟨{ is_responsive := false, votes_cast := ∅, vote_pool := fun _ => none,
     notarized_slots := fun _ => none, finalized_slots := fun _ => none, current_slot := 0 }⟩

/-- LivenessState of liveness.rs. -/
structure LivenessState where
  network : Finset MessageInTransit
  validators : List ValidatorState
  current_slot : Nat
  stake_distribution : Nat → Option Nat
  block_proposals : Nat → Option Nat
  finalization_times : Nat → Option Nat

/-- LivenessModel of liveness.rs. -/
structure LivenessModel where
  validator_count : Nat
  max_slot : Nat
  responsive_count : Nat

/-- Validator access, defaulting out of range. -/
def LivenessState.vAt (s : LivenessState) (i : Nat) : ValidatorState :=
  s.validators.getD i default

/-- LivenessState::new. -/
def initState (validator_count responsive_count : Nat) : LivenessState :=
  let stake_per_validator := TOTAL_STAKE / validator_count
  { network := ∅
    validators := (List.range validator_count).map (fun i =>
      { is_responsive := decide (i < responsive_count)
        votes_cast := ∅
        vote_pool := fun _ => none
        notarized_slots := fun _ => none
        finalized_slots := fun _ => none
        current_slot := 0 })
    current_slot := 0
    stake_distribution := fun i =>
      if i < validator_count then some stake_per_validator else none
    block_proposals := fun _ => none
    finalization_times := fun _ => none }

/-- The responsiveness-filtered stake sum used by can_notarize and
can_fast_finalize. -/
def responsive_stake (s : LivenessState) (voters : Finset Nat) : Nat :=
  Finset.sum (voters.filter (fun v => (s.vAt v).is_responsive = true))
    (fun v => (s.stake_distribution v).getD 0)

/-- LivenessState::can_notarize: reads the vote pool of validator 0 only and
counts only responsive voters. -/
def can_notarize (s : LivenessState) (slot hash : Nat) : Bool :=
  match (s.vAt 0).vote_pool (slot, some hash) with
  | some voters =>
      decide (TOTAL_STAKE * SLOW_PATH_THRESHOLD_PERCENT / 100 ≤ responsive_stake s voters)
  | none => false

/-- LivenessState::can_fast_finalize. -/
def can_fast_finalize (s : LivenessState) (slot hash : Nat) : Bool :=
  match (s.vAt 0).vote_pool (slot, some hash) with
  | some voters =>
      decide (TOTAL_STAKE * FAST_PATH_THRESHOLD_PERCENT / 100 ≤ responsive_stake s voters)
  | none => false

/-- LivenessState::can_slow_finalize: responsive validators holding a
(slot, None) vote, each counted with the stake of validator 0 (the simplified
stake lookup of the source). -/
def can_slow_finalize (s : LivenessState) (slot : Nat) : Bool :=
  decide (TOTAL_STAKE * SLOW_PATH_THRESHOLD_PERCENT / 100 ≤
    (((s.validators.filter (fun v => v.is_responsive)).filter
        (fun v => decide ((slot, (none : Option Nat)) ∈ v.votes_cast))).map
      (fun _ => (s.stake_distribution 0).getD 0)).sum)

/-- Broadcast to all validators 0..n. -/
def broadcast (n : Nat) (msg : LivenessMessage) (net : Finset MessageInTransit) :
    Finset MessageInTransit :=
  net ∪ (Finset.range n).image (fun i => ⟨i, msg⟩)

/-- Broadcast to all validators except the proposer. -/
def broadcast_except (n p : Nat) (msg : LivenessMessage) (net : Finset MessageInTransit) :
    Finset MessageInTransit :=
  net ∪ ((Finset.range n).filter (fun i => i ≠ p)).image (fun i => ⟨i, msg⟩)

/-- FinalVote broadcast of the slow path: each responsive validator i receives
FinalVote with voter i. -/
def finalvote_broadcast (s : LivenessState) (n slot : Nat)
    (net : Finset MessageInTransit) : Finset MessageInTransit :=
  net ∪ ((Finset.range n).filter (fun i => (s.vAt i).is_responsive = true)).image
    (fun i => ⟨i, LivenessMessage.finalVote slot i⟩)

/-- LivenessModel::next_state.  The notarization and finalization checks read
the validators of the cloned next_state, which still holds the pre-delivery
validator states, exactly as the Rust code does. -/
def next (m : LivenessModel) (s : LivenessState) (a : LivenessAction) :
    Option LivenessState :=
  match a with
  | .proposeBlock slot proposer =>
      let block_hash := slot * 1000 + proposer
      some { s with
        block_proposals := fun k => if k = slot then some block_hash else s.block_proposals k
        network := broadcast_except m.validator_count proposer
          (.blockProposal slot block_hash proposer) s.network }
  | .deliverMessage e =>
      if e ∈ s.network then
        let s1 := { s with network := s.network.erase e }
        let v := s.vAt e.dst
        match e.msg with
        | .blockProposal slot hash _ =>
            if v.is_responsive = true ∧ (slot, some hash) ∉ v.votes_cast then
              let v2 := { v with votes_cast := insert (slot, some hash) v.votes_cast }
              some { s1 with
                network := broadcast m.validator_count (.notarVote slot hash e.dst)
                  (s.network.erase e)
                validators := s.validators.set e.dst v2 }
            else some s1
        | .notarVote slot hash voter =>
            let v2 := { v with vote_pool := fun k => if k = (slot, some hash) then some (insert voter ((v.vote_pool (slot, some hash)).getD ∅)) else v.vote_pool k }
            if can_notarize s1 slot hash then
              let v3 := { v2 with notarized_slots := fun k => if k = slot then some hash else v2.notarized_slots k }
              if can_fast_finalize s1 slot hash then
                let v4 := { v3 with finalized_slots := fun k => if k = slot then some hash else v3.finalized_slots k }
                some { s1 with
                  finalization_times := fun k => if k = slot then some 1 else s.finalization_times k
                  validators := s.validators.set e.dst v4 }
              else
                some { s1 with
                  network := finalvote_broadcast s m.validator_count slot (s.network.erase e)
                  validators := s.validators.set e.dst v3 }
            else
              some { s1 with validators := s.validators.set e.dst v2 }
        | .finalVote slot voter =>
            if (s.vAt voter).is_responsive = true then
              let v2 := { v with votes_cast := insert (slot, (none : Option Nat)) v.votes_cast }
              if can_slow_finalize s1 slot then
                match v2.notarized_slots slot with
                | some hash =>
                    let v3 := { v2 with finalized_slots := fun k => if k = slot then some hash else v2.finalized_slots k }
                    some { s1 with
                      finalization_times := fun k => if k = slot then some 2 else s.finalization_times k
                      validators := s.validators.set e.dst v3 }
                | none => some { s1 with validators := s.validators.set e.dst v2 }
              else some { s1 with validators := s.validators.set e.dst v2 }
            else some s1
        | .timeoutEvent _ _ => some s1
      else none
  | .triggerTimeout slot validator =>
      some { s with network := insert ⟨validator, LivenessMessage.timeoutEvent slot validator⟩ s.network }
  | .advanceSlot =>
      some { s with
        current_slot := s.current_slot + 1
        validators := s.validators.map (fun w => { w with current_slot := s.current_slot + 1 }) }

/-- LivenessModel::actions, as an enabledness relation. -/
def Gen (m : LivenessModel) (s : LivenessState) : LivenessAction → Prop
  | .deliverMessage e => e ∈ s.network
  | .proposeBlock slot proposer =>
      s.current_slot ≤ slot ∧ slot ≤ m.max_slot ∧ proposer < m.validator_count ∧
        s.block_proposals slot = none
  | .triggerTimeout slot validator =>
      1 ≤ slot ∧ slot ≤ m.max_slot ∧ validator < m.validator_count
  | .advanceSlot => s.current_slot < m.max_slot

/-- States reachable from the initial state of the liveness model. -/
inductive Reach (m : LivenessModel) : LivenessState → Prop where
  | init : Reach m (initState m.validator_count m.responsive_count)
  | step {s a s2} : Reach m s → Gen m s a → next m s a = some s2 → Reach m s2

/-- Bounded finalization times: every recorded value is 1 or 2. -/
def bounded_times (s : LivenessState) : Prop :=
  ∀ slot t, s.finalization_times slot = some t → t = 1 ∨ t = 2

end Live

namespace Live

/-- Initially no finalization times are recorded. -/
theorem bounded_times_init (n r : Nat) : bounded_times (initState n r) := by
  intro slot t h
  simp [initState] at h

/-- Every transition records only finalization time 1 or 2. -/
theorem bounded_times_step {m : LivenessModel} {s s2 : LivenessState} {a : LivenessAction}
    (hB : bounded_times s) (hn : next m s a = some s2) : bounded_times s2 := by
  cases a with
  | proposeBlock slot proposer =>
      simp only [next] at hn
      injection hn with h2
      subst h2
      exact hB
  | triggerTimeout slot validator =>
      simp only [next] at hn
      injection hn with h2
      subst h2
      exact hB
  | advanceSlot =>
      simp only [next] at hn
      injection hn with h2
      subst h2
      exact hB
  | deliverMessage e =>
      obtain ⟨d, msg⟩ := e
      cases msg with
      | blockProposal slot hash proposer =>
          simp only [next] at hn
          split at hn
          case isFalse => exact absurd hn (by simp)
          case isTrue hmem =>
            split at hn <;>
            · injection hn with h2
              subst h2
              exact hB
      | timeoutEvent slot validator =>
          simp only [next] at hn
          split at hn
          case isFalse => exact absurd hn (by simp)
          case isTrue hmem =>
            injection hn with h2
            subst h2
            exact hB
      | notarVote slot hash voter =>
          simp only [next] at hn
          split at hn
          case isFalse => exact absurd hn (by simp)
          case isTrue hmem =>
            split at hn
            case isFalse =>
              injection hn with h2
              subst h2
              exact hB
            case isTrue =>
              split at hn
              case isFalse =>
                injection hn with h2
                subst h2
                exact hB
              case isTrue =>
                injection hn with h2
                subst h2
                intro sl t hts
                have hts2 : (if sl = slot then some 1 else s.finalization_times sl) =
                  some t := hts
                by_cases hk : sl = slot
                · rw [if_pos hk] at hts2
                  injection hts2 with h3
                  exact Or.inl h3.symm
                · rw [if_neg hk] at hts2
                  exact hB sl t hts2
      | finalVote slot voter =>
          simp only [next] at hn
          split at hn
          case isFalse => exact absurd hn (by simp)
          case isTrue hmem =>
            split at hn
            case isFalse =>
              injection hn with h2
              subst h2
              exact hB
            case isTrue =>
              split at hn
              case isFalse =>
                injection hn with h2
                subst h2
                exact hB
              case isTrue =>
                split at hn
                case h_1 hash hmatch =>
                  injection hn with h2
                  subst h2
                  intro sl t hts
                  have hts2 : (if sl = slot then some 2 else s.finalization_times sl) =
                    some t := hts
                  by_cases hk : sl = slot
                  · rw [if_pos hk] at hts2
                    injection hts2 with h3
                    exact Or.inr h3.symm
                  · rw [if_neg hk] at hts2
                    exact hB sl t hts2
                case h_2 hmatch =>
                  injection hn with h2
                  subst h2
                  exact hB

/-- Every reachable state of the liveness model has bounded finalization
times. -/
theorem reach_bounded_times {m : LivenessModel} {s : LivenessState} (h : Reach m s) :
    bounded_times s := by
  induction h with
  | init => exact bounded_times_init m.validator_count m.responsive_count
  | step hr hg hn ih => exact bounded_times_step ih hn

end Live

namespace Votor

/-- Constants of votor.rs.  VALIDATOR_COUNT is a fixed constant there and the
per-validator stake is derived from it by integer division. -/
def VALIDATOR_COUNT : Nat := 3

def FAST_FINALIZE_THRESHOLD : Nat := 80

def NOTARIZE_THRESHOLD : Nat := 60

def SLOW_FINALIZE_THRESHOLD : Nat := 60

def STAKE_PER_VALIDATOR : Nat := 100 / VALIDATOR_COUNT

/-- SlotState of votor.rs (Definition 18 flags); Default is all-false/None. -/
structure SlotState where
  voted : Bool
  voted_notar : Option Nat
  block_notarized : Option Nat
  bad_window : Bool
  its_over : Bool
deriving DecidableEq

instance : Inhabited SlotState :=
  ⟨{ voted := false, voted_notar := none, block_notarized := none,
     bad_window := false, its_over := false }⟩

/-- Message of votor.rs. -/
inductive Message where
  | block (slot hash parent_hash : Nat)
  | notarVote (slot hash voter : Nat)
  | finalVote (slot voter : Nat)
  | skipVote (slot voter : Nat)
deriving DecidableEq

/-- MessageInTransit of votor.rs. -/
structure MessageInTransit where
  dst : Nat
  msg : Message
deriving DecidableEq

/-- Action of votor.rs. -/
inductive Action where
  | propose (slot proposer : Nat)
  | deliver (e : MessageInTransit)
  | timeout (slot node_id : Nat)
deriving DecidableEq

/-- NodeState of votor.rs; the nested vote pool BTreeMap<Slot, BTreeMap<Hash,
BTreeSet<ActorId>>> is embedded pointwise. -/
structure NodeState where
  slot_states : Nat → Option SlotState
  vote_pool : Nat → Option (Nat → Option (Finset Nat))
  final_vote_pool : Nat → Option (Finset Nat)

instance : Inhabited NodeState :=
  ⟨{ slot_states := fun _ => none, vote_pool := fun _ => none,
     final_vote_pool := fun _ => none }⟩

/-- VotorState of votor.rs. -/
structure VotorState where
  network : Finset MessageInTransit
  finalized_blocks : Nat → Option Nat
  node_states : List NodeState
  current_slot : Nat

/-- VotorModel of votor.rs. -/
structure VotorModel where
  honest_validators : Nat
  max_slot : Nat

/-- Node access, defaulting out of range. -/
def VotorState.nAt (s : VotorState) (i : Nat) : NodeState :=
  s.node_states.getD i default

/-- VotorState::new: a genesis block is finalized at slot 0 with hash 0. -/
def initState (validator_count : Nat) : VotorState :=
  { network := ∅
    finalized_blocks := fun k => if k = 0 then some 0 else none
    node_states := (List.range validator_count).map (fun _ =>
      { slot_states := fun _ => none, vote_pool := fun _ => none,
        final_vote_pool := fun _ => none })
    current_slot := 0 }

/-- Broadcast to all nodes 0..n. -/
def broadcast (n : Nat) (msg : Message) (net : Finset MessageInTransit) :
    Finset MessageInTransit :=
  net ∪ (Finset.range n).image (fun i => ⟨i, msg⟩)

/-- Broadcast to all nodes except the proposer. -/
def broadcast_except (n p : Nat) (msg : Message) (net : Finset MessageInTransit) :
    Finset MessageInTransit :=
  net ∪ ((Finset.range n).filter (fun i => i ≠ p)).image (fun i => ⟨i, msg⟩)

/-- VotorModel::next_state.  BTreeMap::entry(..).or_default() inserts a default
entry even on paths that do not change it further, which the embedding
reproduces by writing the defaulted entry back. -/
def next (m : VotorModel) (s : VotorState) (a : Action) : Option VotorState :=
  match a with
  | .propose slot proposer =>
      let parent_slot := slot - 1
      match s.finalized_blocks parent_slot with
      | some parent_hash =>
          let block_hash := slot
          some { s with network := broadcast_except m.honest_validators proposer (.block slot block_hash parent_hash) s.network }
      | none => some s
  | .deliver e =>
      if e ∈ s.network then
        let s1 := { s with network := s.network.erase e }
        let node := s.nAt e.dst
        match e.msg with
        | .block slot hash parent_hash =>
            let ss := (node.slot_states slot).getD default
            if ss.voted = false ∧ s.finalized_blocks (slot - 1) = some parent_hash then
              let ss2 := { ss with voted := true, voted_notar := some hash }
              let node2 := { node with slot_states := fun k => if k = slot then some ss2 else node.slot_states k }
              some { s1 with
                network := broadcast m.honest_validators (.notarVote slot hash e.dst)
                  (s.network.erase e)
                node_states := s.node_states.set e.dst node2 }
            else
              let node2 := { node with slot_states := fun k => if k = slot then some ss else node.slot_states k }
              some { s1 with node_states := s.node_states.set e.dst node2 }
        | .notarVote slot hash voter =>
            let slot_votes := (node.vote_pool slot).getD (fun _ => none)
            let block_voters := insert voter ((slot_votes hash).getD ∅)
            let slot_votes2 := fun hk => if hk = hash then some block_voters else slot_votes hk
            let node2 := { node with vote_pool := fun sk => if sk = slot then some slot_votes2 else node.vote_pool sk }
            let total_stake := block_voters.card * STAKE_PER_VALIDATOR
            let fin2 := if FAST_FINALIZE_THRESHOLD ≤ total_stake then
                (fun k => if k = slot then some hash else s.finalized_blocks k)
              else s.finalized_blocks
            if NOTARIZE_THRESHOLD ≤ total_stake then
              let ss := (node2.slot_states slot).getD default
              if ss.block_notarized = none then
                let ss2 := { ss with block_notarized := some hash }
                if ss2.voted_notar = some hash ∧ ss2.bad_window = false then
                  let ss3 := { ss2 with its_over := true }
                  let node3 := { node2 with slot_states := fun k => if k = slot then some ss3 else node2.slot_states k }
                  some { s1 with
                    finalized_blocks := fin2
                    network := broadcast m.honest_validators (.finalVote slot e.dst)
                      (s.network.erase e)
                    node_states := s.node_states.set e.dst node3 }
                else
                  let node3 := { node2 with slot_states := fun k => if k = slot then some ss2 else node2.slot_states k }
                  some { s1 with
                    finalized_blocks := fin2
                    node_states := s.node_states.set e.dst node3 }
              else
                let node3 := { node2 with slot_states := fun k => if k = slot then some ss else node2.slot_states k }
                some { s1 with
                  finalized_blocks := fin2
                  node_states := s.node_states.set e.dst node3 }
            else
              some { s1 with
                finalized_blocks := fin2
                node_states := s.node_states.set e.dst node2 }
        | .finalVote slot voter =>
            let slot_final_voters := insert voter ((node.final_vote_pool slot).getD ∅)
            let node2 := { node with final_vote_pool := fun k => if k = slot then some slot_final_voters else node.final_vote_pool k }
            let total_stake := slot_final_voters.card * STAKE_PER_VALIDATOR
            if SLOW_FINALIZE_THRESHOLD ≤ total_stake then
              match (node2.slot_states slot).bind (fun ss => ss.block_notarized) with
              | some notarized_hash =>
                  some { s1 with
                    finalized_blocks := fun k => if k = slot then some notarized_hash else s.finalized_blocks k
                    node_states := s.node_states.set e.dst node2 }
              | none =>
                  some { s1 with node_states := s.node_states.set e.dst node2 }
            else
              some { s1 with node_states := s.node_states.set e.dst node2 }
        | .skipVote slot _ =>
            let ss := (node.slot_states slot).getD default
            let ss2 := { ss with bad_window := true }
            let node2 := { node with slot_states := fun k => if k = slot then some ss2 else node.slot_states k }
            some { s1 with node_states := s.node_states.set e.dst node2 }
      else none
  | .timeout slot node_id =>
      let node := s.nAt node_id
      let ss := (node.slot_states slot).getD default
      if ss.voted = false then
        let ss2 := { ss with voted := true, bad_window := true }
        let node2 := { node with slot_states := fun k => if k = slot then some ss2 else node.slot_states k }
        some { s with
          network := broadcast m.honest_validators (.skipVote slot node_id) s.network
          node_states := s.node_states.set node_id node2 }
      else
        let node2 := { node with slot_states := fun k => if k = slot then some ss else node.slot_states k }
        some { s with node_states := s.node_states.set node_id node2 }

end Votor

namespace TO

/-- Skip certificate threshold percent of timeout.rs. -/
def SKIP_CERTIFICATE_THRESHOLD_PERCENT : Nat := 60

/-- Total stake constant of timeout.rs. -/
def TOTAL_STAKE : Nat := 1000

/-- TimeoutMessage of timeout.rs. -/
inductive TimeoutMessage where
  | blockProposal (slot hash proposer : Nat)
  | notarVote (slot hash voter : Nat)
  | skipVote (slot voter : Nat)
  | timeoutEvent (slot validator : Nat)
deriving DecidableEq

/-- MessageInTransit of timeout.rs. -/
structure MessageInTransit where
  dst : Nat
  msg : TimeoutMessage
deriving DecidableEq

/-- TimeoutAction of timeout.rs. -/
inductive TimeoutAction where
  | proposeBlock (slot proposer : Nat)
  | deliverMessage (e : MessageInTransit)
  | triggerTimeout (slot validator : Nat)
  | advanceSlot
deriving DecidableEq

/-- ValidatorState of timeout.rs: votes_cast maps a slot to the vote value
(None encodes a skip vote). -/
structure ValidatorState where
  votes_cast : Nat → Option (Option Nat)
  vote_pool : Nat × Option Nat → Option (Finset Nat)
  certificates : Finset (Nat × Option Nat)
  bad_window : Bool
  current_slot : Nat

instance : Inhabited ValidatorState :=
  ⟨{ votes_cast := fun _ => none, vote_pool := fun _ => none, certificates := ∅,
     bad_window := false, current_slot := 0 }⟩

/-- TimeoutState of timeout.rs. -/
structure TimeoutState where
  network : Finset MessageInTransit
  validators : List ValidatorState
  current_slot : Nat
  skip_certificates : Nat → Option Bool
  block_proposals : Nat → Option Nat

/-- TimeoutModel of timeout.rs. -/
structure TimeoutModel where
  validator_count : Nat
  max_slot : Nat

/-- Validator access, defaulting out of range. -/
def TimeoutState.vAt (s : TimeoutState) (i : Nat) : ValidatorState :=
  s.validators.getD i default

/-- TimeoutState::new. -/
def initState (validator_count : Nat) : TimeoutState :=
  { network := ∅
    validators := (List.range validator_count).map (fun _ =>
      { votes_cast := fun _ => none, vote_pool := fun _ => none, certificates := ∅,
        bad_window := false, current_slot := 0 })
    current_slot := 0
    skip_certificates := fun _ => none
    block_proposals := fun _ => none }

/-- TimeoutState::can_form_skip_certificate: reads the skip-vote pool entry of
validator 0 and weighs each voter by TOTAL_STAKE / validator count. -/
def can_form_skip_certificate (s : TimeoutState) (slot : Nat) : Bool :=
  match (s.vAt 0).vote_pool (slot, none) with
  | some voters =>
      decide (TOTAL_STAKE * SKIP_CERTIFICATE_THRESHOLD_PERCENT / 100 ≤
        voters.card * (TOTAL_STAKE / s.validators.length))
  | none => false

/-- TimeoutState::can_form_block_certificate. -/
def can_form_block_certificate (s : TimeoutState) (slot hash : Nat) : Bool :=
  match (s.vAt 0).vote_pool (slot, some hash) with
  | some voters =>
      decide (TOTAL_STAKE * SKIP_CERTIFICATE_THRESHOLD_PERCENT / 100 ≤
        voters.card * (TOTAL_STAKE / s.validators.length))
  | none => false

/-- Broadcast to all validators 0..n. -/
def broadcast (n : Nat) (msg : TimeoutMessage) (net : Finset MessageInTransit) :
    Finset MessageInTransit :=
  net ∪ (Finset.range n).image (fun i => ⟨i, msg⟩)

/-- Broadcast to all validators except the proposer. -/
def broadcast_except (n p : Nat) (msg : TimeoutMessage) (net : Finset MessageInTransit) :
    Finset MessageInTransit :=
  net ∪ ((Finset.range n).filter (fun i => i ≠ p)).image (fun i => ⟨i, msg⟩)

/-- TimeoutModel::next_state. -/
def next (m : TimeoutModel) (s : TimeoutState) (a : TimeoutAction) : Option TimeoutState :=
  match a with
  | .proposeBlock slot proposer =>
      let block_hash := slot * 1000 + proposer
      some { s with
        block_proposals := fun k => if k = slot then some block_hash else s.block_proposals k
        network := broadcast_except m.validator_count proposer
          (.blockProposal slot block_hash proposer) s.network }
  | .deliverMessage e =>
      if e ∈ s.network then
        let s1 := { s with network := s.network.erase e }
        let v := s.vAt e.dst
        match e.msg with
        | .blockProposal slot hash _ =>
            if v.votes_cast slot = none then
              let v2 := { v with votes_cast := fun k => if k = slot then some (some hash) else v.votes_cast k }
              some { s1 with
                network := broadcast m.validator_count (.notarVote slot hash e.dst)
                  (s.network.erase e)
                validators := s.validators.set e.dst v2 }
            else some s1
        | .notarVote slot hash voter =>
            let v2 := { v with vote_pool := fun k => if k = (slot, some hash) then some (insert voter ((v.vote_pool (slot, some hash)).getD ∅)) else v.vote_pool k }
            if can_form_block_certificate s1 slot hash then
              let v3 := { v2 with certificates := insert (slot, some hash) v2.certificates }
              some { s1 with validators := s.validators.set e.dst v3 }
            else
              some { s1 with validators := s.validators.set e.dst v2 }
        | .skipVote slot voter =>
            let v2 := { v with vote_pool := fun k => if k = (slot, none) then some (insert voter ((v.vote_pool (slot, none)).getD ∅)) else v.vote_pool k }
            if can_form_skip_certificate s1 slot then
              let v3 := { v2 with certificates := insert (slot, none) v2.certificates, bad_window := true }
              some { s1 with
                skip_certificates := fun k => if k = slot then some true else s.skip_certificates k
                validators := s.validators.set e.dst v3 }
            else
              some { s1 with validators := s.validators.set e.dst v2 }
        | .timeoutEvent slot _ =>
            if v.votes_cast slot = none then
              let v2 := { v with votes_cast := fun k => if k = slot then some none else v.votes_cast k }
              some { s1 with
                network := broadcast m.validator_count (.skipVote slot e.dst)
                  (s.network.erase e)
                validators := s.validators.set e.dst v2 }
            else some s1
      else none
  | .triggerTimeout slot validator =>
      some { s with network := insert ⟨validator, TimeoutMessage.timeoutEvent slot validator⟩ s.network }
  | .advanceSlot =>
      some { s with
        current_slot := s.current_slot + 1
        validators := s.validators.map (fun w => { w with current_slot := s.current_slot + 1 }) }

end TO

namespace Leader

/-- Leader window size constant of leader.rs. -/
def LEADER_WINDOW_SIZE : Nat := 5

/-- LeaderMessage of leader.rs. -/
inductive LeaderMessage where
  | leaderSelection (slot leader stake : Nat)
  | skipCertificate (slot failed_leader : Nat)
  | badWindowUpdate (slot validator : Nat) (bad_window : Bool)
deriving DecidableEq

/-- MessageInTransit of leader.rs. -/
structure MessageInTransit where
  dst : Nat
  msg : LeaderMessage
deriving DecidableEq

/-- LeaderAction of leader.rs. -/
inductive LeaderAction where
  | selectLeader (slot leader : Nat)
  | deliverMessage (e : MessageInTransit)
  | triggerLeaderFailure (slot leader : Nat)
  | advanceSlot
deriving DecidableEq

/-- ValidatorState of leader.rs.  skip_certificates is a BTreeMap from slot to
failed leader; along reachable paths a slot is only ever paired with the single
assigned leader, so inserting the pair into a set of pairs coincides with the
map insert. -/
structure ValidatorState where
  current_slot : Nat
  bad_window : Bool
  bad_window_triggered_at : Option Nat
  known_leaders : Nat → Option Nat
  skip_certificates : Finset (Nat × Nat)
  stake : Nat

instance : Inhabited ValidatorState :=
  ⟨{ current_slot := 0, bad_window := false, bad_window_triggered_at := none,
     known_leaders := fun _ => none, skip_certificates := ∅, stake := 0 }⟩

/-- LeaderState of leader.rs.  The stake distribution is a BTreeMap iterated in
ascending key order by get_leader_for_slot, so it is embedded as the
ascending-by-key association list it is constructed as. -/
structure LeaderState where
  network : Finset MessageInTransit
  validators : List ValidatorState
  current_slot : Nat
  leader_assignments : Nat → Option Nat
  leader_failures : Nat → Option Nat
  stake_distribution : List (Nat × Nat)

/-- LeaderModel of leader.rs. -/
structure LeaderModel where
  validator_count : Nat
  max_slot : Nat

/-- Validator access, defaulting out of range. -/
def LeaderState.vAt (s : LeaderState) (i : Nat) : ValidatorState :=
  s.validators.getD i default

/-- LeaderState::new. -/
def initState (validator_count : Nat) : LeaderState :=
  let stake_per_validator := 1000 / validator_count
  { network := ∅
    validators := (List.range validator_count).map (fun _ =>
      { current_slot := 0, bad_window := false, bad_window_triggered_at := none,
        known_leaders := fun _ => none, skip_certificates := ∅,
        stake := stake_per_validator })
    current_slot := 0
    leader_assignments := fun _ => none
    leader_failures := fun _ => none
    stake_distribution := (List.range validator_count).map (fun i => (i, stake_per_validator)) }

/-- The cumulative scan of get_leader_for_slot over the ordered stake list. -/
def leader_scan (seed : Nat) : Nat → List (Nat × Nat) → Option Nat
  | _, [] => none
  | cum, p :: rest =>
      if seed < cum + p.2 then some p.1 else leader_scan seed (cum + p.2) rest

/-- LeaderState::get_leader_for_slot.  The Rust fallback unwraps the last key
of the nonempty stake map; the embedding defaults to 0 on the empty list the
source would panic on. -/
def get_leader_for_slot (s : LeaderState) (slot : Nat) : Nat :=
  let total_stake := (s.stake_distribution.map (fun p => p.2)).sum
  let slot_seed := (slot * 1234567891) % total_stake
  match leader_scan slot_seed 0 s.stake_distribution with
  | some validator_id => validator_id
  | none => ((s.stake_distribution.map (fun p => p.1)).getLast?).getD 0

/-- LeaderState::is_within_window: the window looks forward from current_slot. -/
def is_within_window (slot current_slot : Nat) : Bool :=
  decide (current_slot ≤ slot ∧ slot < current_slot + LEADER_WINDOW_SIZE)

/-- LeaderState::update_badwindow_flags, acting on the validators of the state
it is called on. -/
def update_badwindow_flags (s : LeaderState) : LeaderState :=
  { s with validators := s.validators.map (fun v =>
      let has_skip := decide (∃ p ∈ v.skip_certificates,
        v.current_slot ≤ p.1 ∧ p.1 < v.current_slot + LEADER_WINDOW_SIZE)
      if has_skip = true ∧ v.bad_window = false then
        { v with bad_window := true, bad_window_triggered_at := some v.current_slot }
      else if has_skip = false ∧ v.bad_window = true then
        { v with bad_window := false, bad_window_triggered_at := none }
      else v) }

/-- Broadcast to all validators 0..n. -/
def broadcast (n : Nat) (msg : LeaderMessage) (net : Finset MessageInTransit) :
    Finset MessageInTransit :=
  net ∪ (Finset.range n).image (fun i => ⟨i, msg⟩)

/-- LeaderModel::next_state.  In the AdvanceSlot arm the Rust code updates the
slot counters on a local validators array, re-evaluates the BadWindow flags on
the cloned next_state (whose validators still hold the old slots), and then
assigns the local array over next_state.validators, discarding every flag
change made by update_badwindow_flags; the embedding reproduces this order. -/
def next (m : LeaderModel) (s : LeaderState) (a : LeaderAction) : Option LeaderState :=
  match a with
  | .selectLeader slot leader =>
      let s2 : LeaderState := { s with leader_assignments := fun k => if k = slot then some leader else s.leader_assignments k }
      match s2.stake_distribution.lookup leader with
      | some stake =>
          some { s2 with network := broadcast m.validator_count (.leaderSelection slot leader stake) s2.network }
      | none => some s2
  | .deliverMessage e =>
      if e ∈ s.network then
        let v := s.vAt e.dst
        match e.msg with
        | .leaderSelection slot leader _ =>
            let v2 := { v with known_leaders := fun k => if k = slot then some leader else v.known_leaders k }
            some { s with network := s.network.erase e, validators := s.validators.set e.dst v2 }
        | .skipCertificate slot failed_leader =>
            let v2 := { v with skip_certificates := insert (slot, failed_leader) v.skip_certificates }
            some { s with network := s.network.erase e, validators := s.validators.set e.dst v2 }
        | .badWindowUpdate _ _ bw =>
            let v2 := { v with bad_window := bw }
            some { s with network := s.network.erase e, validators := s.validators.set e.dst v2 }
      else none
  | .triggerLeaderFailure slot leader =>
      some { s with
        leader_failures := fun k => if k = slot then some leader else s.leader_failures k
        network := broadcast m.validator_count (.skipCertificate slot leader) s.network }
  | .advanceSlot =>
      let s1 : LeaderState := { s with current_slot := s.current_slot + 1 }
      let validators2 := s.validators.map (fun v => { v with current_slot := s.current_slot + 1 })
      let s2 := update_badwindow_flags s1
      some { s2 with validators := validators2 }

/-- LeaderModel::actions, as an enabledness relation; SelectLeader is only
offered with the stake-weighted leader computed by get_leader_for_slot. -/
def Gen (m : LeaderModel) (s : LeaderState) : LeaderAction → Prop
  | .deliverMessage e => e ∈ s.network
  | .selectLeader slot leader =>
      s.current_slot ≤ slot ∧ slot ≤ m.max_slot ∧ s.leader_assignments slot = none ∧
        leader = get_leader_for_slot s slot
  | .triggerLeaderFailure slot leader => 1 ≤ slot ∧ slot ≤ m.max_slot ∧
      s.leader_assignments slot = some leader
  | .advanceSlot => s.current_slot < m.max_slot

/-- States reachable from the initial state of the leader model. -/
inductive Reach (m : LeaderModel) : LeaderState → Prop where
  | init : Reach m (initState m.validator_count)
  | step {s a s2} : Reach m s → Gen m s a → next m s a = some s2 → Reach m s2

end Leader

namespace Live

/-- can_notarize ignores the network. -/
theorem can_notarize_network (s : LivenessState) (net : Finset MessageInTransit)
    (slot hash : Nat) :
    can_notarize { s with network := net } slot hash = can_notarize s slot hash := rfl

/-- can_fast_finalize ignores the network. -/
theorem can_fast_finalize_network (s : LivenessState) (net : Finset MessageInTransit)
    (slot hash : Nat) :
    can_fast_finalize { s with network := net } slot hash = can_fast_finalize s slot hash := rfl

/-- can_slow_finalize ignores the network. -/
theorem can_slow_finalize_network (s : LivenessState) (net : Finset MessageInTransit)
    (slot : Nat) :
    can_slow_finalize { s with network := net } slot = can_slow_finalize s slot := rfl

/-- The stake of all recorded voters of a notarization pool entry, following
the words of the claim (no responsiveness filter); 0 when no entry exists. -/
def spec_recorded_stake (s : LivenessState) (slot hash : Nat) : Nat :=
  match (s.vAt 0).vote_pool (slot, some hash) with
  | some voters => Finset.sum voters (fun v => (s.stake_distribution v).getD 0)
  | none => 0

/-- The responsiveness-filtered stake of the recorded voters, as the code sums
it; 0 when no entry exists. -/
def responsive_recorded_stake (s : LivenessState) (slot hash : Nat) : Nat :=
  match (s.vAt 0).vote_pool (slot, some hash) with
  | some voters => responsive_stake s voters
  | none => 0

/-- can_notarize holds exactly when the responsive recorded stake meets the
floor threshold. -/
theorem can_notarize_iff (s : LivenessState) (slot hash : Nat) :
    can_notarize s slot hash = true ↔
      TOTAL_STAKE * SLOW_PATH_THRESHOLD_PERCENT / 100 ≤
        responsive_recorded_stake s slot hash := by
  unfold can_notarize responsive_recorded_stake
  cases (s.vAt 0).vote_pool (slot, some hash) with
  | none =>
      constructor
      · intro h
        exact absurd h (by simp)
      · intro h
        simp [TOTAL_STAKE, SLOW_PATH_THRESHOLD_PERCENT] at h
  | some voters => simp

/-- The liveness state refuting the unfiltered reading of the can_notarize
threshold: four validators of stake 250, validators 0..2 responsive, and a
validator-0 pool entry for slot 1 hash 100 containing voters 0, 1 and the
unresponsive validator 3. -/
def c3State : LivenessState :=
  let base := initState 4 3
  { base with validators :=
      base.validators.set 0 { base.vAt 0 with vote_pool := fun k => if k = (1, some 100) then some {0, 1, 3} else none } }

end Live

namespace Live

/-- NotarVote dispatch of the liveness model: the vote is pooled at the
recipient; on reaching the notarization threshold the slot is notarized, and
then either fast-finalized with time 1, or a FinalVote is broadcast to every
responsive validator with no time recorded. -/
theorem notarVote_dispatch {m : LivenessModel} {s s2 : LivenessState} {d slot hash voter : Nat}
    (hn : next m s (LivenessAction.deliverMessage
      ⟨d, LivenessMessage.notarVote slot hash voter⟩) = some s2)
    (hdlen : d < s.validators.length) :
    (s2.vAt d).vote_pool (slot, some hash) =
      some (insert voter (((s.vAt d).vote_pool (slot, some hash)).getD ∅)) ∧
    (can_notarize s slot hash = true →
      (s2.vAt d).notarized_slots slot = some hash ∧
      (can_fast_finalize s slot hash = true →
        (s2.vAt d).finalized_slots slot = some hash ∧
        s2.finalization_times slot = some 1 ∧
        s2.network = s.network.erase ⟨d, LivenessMessage.notarVote slot hash voter⟩) ∧
      (can_fast_finalize s slot hash = false →
        s2.finalization_times = s.finalization_times ∧
        (s2.vAt d).finalized_slots = (s.vAt d).finalized_slots ∧
        s2.network = finalvote_broadcast s m.validator_count slot
          (s.network.erase ⟨d, LivenessMessage.notarVote slot hash voter⟩))) ∧
    (can_notarize s slot hash = false →
      (s2.vAt d).notarized_slots = (s.vAt d).notarized_slots ∧
      s2.finalization_times = s.finalization_times ∧
      s2.network = s.network.erase ⟨d, LivenessMessage.notarVote slot hash voter⟩) := by
  simp only [next] at hn
  split at hn
  case isFalse => exact absurd hn (by simp)
  case isTrue hmem =>
    rw [can_notarize_network, can_fast_finalize_network] at hn
    cases hnot : can_notarize s slot hash with
    | true =>
        rw [if_pos hnot] at hn
        cases hfast : can_fast_finalize s slot hash with
        | true =>
            rw [if_pos hfast] at hn
            injection hn with h2
            subst h2
            refine ⟨?_, ?_, ?_⟩
            · show (LivenessState.vAt _ d).vote_pool (slot, some hash) = _
              unfold LivenessState.vAt
              rw [ModelUtil.getD_set_general, if_pos ⟨rfl, hdlen⟩]
              exact if_pos rfl
            · intro _
              refine ⟨?_, ?_, ?_⟩
              · show (LivenessState.vAt _ d).notarized_slots slot = some hash
                unfold LivenessState.vAt
                rw [ModelUtil.getD_set_general, if_pos ⟨rfl, hdlen⟩]
                exact if_pos rfl
              · intro _
                refine ⟨?_, ?_, rfl⟩
                · show (LivenessState.vAt _ d).finalized_slots slot = some hash
                  unfold LivenessState.vAt
                  rw [ModelUtil.getD_set_general, if_pos ⟨rfl, hdlen⟩]
                  exact if_pos rfl
                · exact if_pos rfl
              · intro hfast2
                exact absurd hfast2 (by simp)
            · intro hnot2
              exact absurd hnot2 (by simp)
        | false =>
            rw [if_neg (by rw [hfast]; exact Bool.false_ne_true)] at hn
            injection hn with h2
            subst h2
            refine ⟨?_, ?_, ?_⟩
            · show (LivenessState.vAt _ d).vote_pool (slot, some hash) = _
              unfold LivenessState.vAt
              rw [ModelUtil.getD_set_general, if_pos ⟨rfl, hdlen⟩]
              exact if_pos rfl
            · intro _
              refine ⟨?_, ?_, ?_⟩
              · show (LivenessState.vAt _ d).notarized_slots slot = some hash
                unfold LivenessState.vAt
                rw [ModelUtil.getD_set_general, if_pos ⟨rfl, hdlen⟩]
                exact if_pos rfl
              · intro hfast2
                exact absurd hfast2 (by simp)
              · intro _
                refine ⟨rfl, ?_, rfl⟩
                show (LivenessState.vAt _ d).finalized_slots = (s.vAt d).finalized_slots
                unfold LivenessState.vAt
                rw [ModelUtil.getD_set_general, if_pos ⟨rfl, hdlen⟩]
            · intro hnot2
              exact absurd hnot2 (by simp)
    | false =>
        rw [if_neg (by rw [hnot]; exact Bool.false_ne_true)] at hn
        injection hn with h2
        subst h2
        refine ⟨?_, ?_, ?_⟩
        · show (LivenessState.vAt _ d).vote_pool (slot, some hash) = _
          unfold LivenessState.vAt
          rw [ModelUtil.getD_set_general, if_pos ⟨rfl, hdlen⟩]
          exact if_pos rfl
        · intro hnot2
          exact absurd hnot2 (by simp)
        · intro _
          refine ⟨?_, rfl, rfl⟩
          show (LivenessState.vAt _ d).notarized_slots = (s.vAt d).notarized_slots
          unfold LivenessState.vAt
          rw [ModelUtil.getD_set_general, if_pos ⟨rfl, hdlen⟩]

end Live

namespace Live

/-- FinalVote dispatch of the liveness model: the second-round vote is recorded
at the recipient; if the slow-path stake threshold is met and the recipient has
the slot notarized, the slot is finalized with time 2; with no notarized entry
or below the threshold no finalization time is recorded. -/
theorem finalVote_dispatch {m : LivenessModel} {s s2 : LivenessState} {d slot voter : Nat}
    (hn : next m s (LivenessAction.deliverMessage
      ⟨d, LivenessMessage.finalVote slot voter⟩) = some s2)
    (hdlen : d < s.validators.length)
    (hresp : (s.vAt voter).is_responsive = true) :
    (slot, (none : Option Nat)) ∈ (s2.vAt d).votes_cast ∧
    (∀ hash, can_slow_finalize s slot = true →
      (s.vAt d).notarized_slots slot = some hash →
      (s2.vAt d).finalized_slots slot = some hash ∧ s2.finalization_times slot = some 2) ∧
    (can_slow_finalize s slot = false → s2.finalization_times = s.finalization_times) ∧
    ((s.vAt d).notarized_slots slot = none →
      s2.finalization_times = s.finalization_times) := by
  simp only [next] at hn
  split at hn
  case isFalse => exact absurd hn (by simp)
  case isTrue hmem =>
    rw [can_slow_finalize_network] at hn
    cases hslow : can_slow_finalize s slot with
    | true =>
        rw [if_pos hslow] at hn
        split at hn
        case h_1 h0 heq =>
          injection hn with h2
          subst h2
          have heq2 : (s.vAt d).notarized_slots slot = some h0 := heq
          refine ⟨?_, ?_, ?_, ?_⟩
          · show (slot, (none : Option Nat)) ∈ (LivenessState.vAt _ d).votes_cast
            unfold LivenessState.vAt
            rw [ModelUtil.getD_set_general, if_pos ⟨rfl, hdlen⟩]
            exact Finset.mem_insert_self _ _
          · intro hash _ hns
            rw [heq2] at hns
            injection hns with hh
            subst hh
            refine ⟨?_, if_pos rfl⟩
            show (LivenessState.vAt _ d).finalized_slots slot = some h0
            unfold LivenessState.vAt
            rw [ModelUtil.getD_set_general, if_pos ⟨rfl, hdlen⟩]
            exact if_pos rfl
          · intro hslow2
            exact absurd hslow2 (by simp)
          · intro hns0
            rw [heq2] at hns0
            exact absurd hns0 (by simp)
        case h_2 heq =>
          injection hn with h2
          subst h2
          have heq2 : (s.vAt d).notarized_slots slot = none := heq
          refine ⟨?_, ?_, ?_, ?_⟩
          · show (slot, (none : Option Nat)) ∈ (LivenessState.vAt _ d).votes_cast
            unfold LivenessState.vAt
            rw [ModelUtil.getD_set_general, if_pos ⟨rfl, hdlen⟩]
            exact Finset.mem_insert_self _ _
          · intro hash _ hns
            rw [heq2] at hns
            exact absurd hns (by simp)
          · intro hslow2
            exact absurd hslow2 (by simp)
          · intro _
            rfl
    | false =>
        rw [if_neg (by rw [hslow]; exact Bool.false_ne_true)] at hn
        injection hn with h2
        subst h2
        refine ⟨?_, ?_, ?_, ?_⟩
        · show (slot, (none : Option Nat)) ∈ (LivenessState.vAt _ d).votes_cast
          unfold LivenessState.vAt
          rw [ModelUtil.getD_set_general, if_pos ⟨rfl, hdlen⟩]
          exact Finset.mem_insert_self _ _
        · intro hash hslow2
          exact absurd hslow2 (by simp)
        · intro _
          rfl
        · intro _
          rfl

end Live

namespace Votor

/-- Delivering a present envelope always has a successor in the votor model. -/
theorem votor_deliver_isSome (m : VotorModel) (s : VotorState) {e : MessageInTransit}
    (he : e ∈ s.network) :
    (next m s (Action.deliver e)).isSome = true := by
  obtain ⟨d, msg⟩ := e
  simp only [next, if_pos he]
  cases msg <;> (repeat' split) <;> rfl

/-- The votor transition function has no successor exactly for delivery of an
envelope that is not in the network; in particular Propose always has a
successor, even when a proposal or finalized block for the slot exists. -/
theorem votor_next_none_iff (m : VotorModel) (s : VotorState) (a : Action) :
    next m s a = none ↔ ∃ e, a = Action.deliver e ∧ e ∉ s.network := by
  cases a with
  | propose slot proposer =>
      constructor
      · intro h
        simp only [next] at h
        split at h <;> exact absurd h (by simp)
      · rintro ⟨e, he, -⟩
        exact absurd he (by simp)
  | timeout slot node_id =>
      constructor
      · intro h
        simp only [next] at h
        split at h <;> exact absurd h (by simp)
      · rintro ⟨e, he, -⟩
        exact absurd he (by simp)
  | deliver e =>
      by_cases he : e ∈ s.network
      · constructor
        · intro h
          have hs := votor_deliver_isSome m s he
          rw [h] at hs
          exact absurd hs (by simp)
        · rintro ⟨e2, he2, hne⟩
          injection he2 with he3
          exact absurd (he3 ▸ he) hne
      · constructor
        · intro h
          exact ⟨e, rfl, he⟩
        · intro h
          simp [next, if_neg he]

/-- FinalVote dispatch of the votor model: the vote is pooled; finalization
happens exactly when the tallied stake meets the slow threshold and the
recipient has a notarized block for the slot — the recipient's bad_window flag
is never consulted. -/
theorem finalVote_cases {m : VotorModel} {s s2 : VotorState} {d slot voter : Nat}
    (hn : next m s (Action.deliver ⟨d, Message.finalVote slot voter⟩) = some s2)
    (hdlen : d < s.node_states.length) :
    (s2.nAt d).final_vote_pool slot =
      some (insert voter (((s.nAt d).final_vote_pool slot).getD ∅)) ∧
    (∀ hash, SLOW_FINALIZE_THRESHOLD ≤
        (insert voter (((s.nAt d).final_vote_pool slot).getD ∅)).card * STAKE_PER_VALIDATOR →
      ((s.nAt d).slot_states slot).bind (fun ss => ss.block_notarized) = some hash →
      s2.finalized_blocks slot = some hash) ∧
    (¬ SLOW_FINALIZE_THRESHOLD ≤
        (insert voter (((s.nAt d).final_vote_pool slot).getD ∅)).card * STAKE_PER_VALIDATOR →
      s2.finalized_blocks = s.finalized_blocks) ∧
    (((s.nAt d).slot_states slot).bind (fun ss => ss.block_notarized) = none →
      s2.finalized_blocks = s.finalized_blocks) := by
  simp only [next] at hn
  split at hn
  case isFalse => exact absurd hn (by simp)
  case isTrue hmem =>
    split at hn
    case isTrue hth =>
      have hth2 : SLOW_FINALIZE_THRESHOLD ≤
          (insert voter (((s.nAt d).final_vote_pool slot).getD ∅)).card * STAKE_PER_VALIDATOR := hth
      split at hn
      case h_1 h0 heq =>
        injection hn with h2
        subst h2
        have heq2 : ((s.nAt d).slot_states slot).bind (fun ss => ss.block_notarized) = some h0 := heq
        refine ⟨?_, ?_, ?_, ?_⟩
        · show (VotorState.nAt _ d).final_vote_pool slot = _
          unfold VotorState.nAt
          rw [ModelUtil.getD_set_general, if_pos ⟨rfl, hdlen⟩]
          exact if_pos rfl
        · intro hash _ hns
          rw [heq2] at hns
          injection hns with hh
          subst hh
          exact if_pos rfl
        · intro hth3
          exact absurd hth2 hth3
        · intro hns0
          rw [heq2] at hns0
          exact absurd hns0 (by simp)
      case h_2 heq =>
        injection hn with h2
        subst h2
        have heq2 : ((s.nAt d).slot_states slot).bind (fun ss => ss.block_notarized) = none := heq
        refine ⟨?_, ?_, ?_, ?_⟩
        · show (VotorState.nAt _ d).final_vote_pool slot = _
          unfold VotorState.nAt
          rw [ModelUtil.getD_set_general, if_pos ⟨rfl, hdlen⟩]
          exact if_pos rfl
        · intro hash _ hns
          rw [heq2] at hns
          exact absurd hns (by simp)
        · intro hth3
          exact absurd hth2 hth3
        · intro _
          rfl
    case isFalse hth =>
      have hth2 : ¬ SLOW_FINALIZE_THRESHOLD ≤
          (insert voter (((s.nAt d).final_vote_pool slot).getD ∅)).card * STAKE_PER_VALIDATOR := hth
      injection hn with h2
      subst h2
      refine ⟨?_, ?_, ?_, ?_⟩
      · show (VotorState.nAt _ d).final_vote_pool slot = _
        unfold VotorState.nAt
        rw [ModelUtil.getD_set_general, if_pos ⟨rfl, hdlen⟩]
        exact if_pos rfl
      · intro hash hth3
        exact absurd hth3 hth2
      · intro _
        rfl
      · intro _
        rfl

end Votor

namespace Votor

/-- Node 0 of the bad-window counterexample: slot 1 has the bad_window flag
set and block 1 notarized; one FinalVote (from voter 1) is already pooled. -/
def cexNode : NodeState :=
  { slot_states := fun k => if k = 1 then some { voted := true, voted_notar := none, block_notarized := some 1, bad_window := true, its_over := false } else none
    vote_pool := fun _ => none
    final_vote_pool := fun k => if k = 1 then some {1} else none }

/-- A votor state about to deliver FinalVote(slot 1, voter 2) to node 0, whose
bad_window flag for slot 1 is set. -/
def cexState : VotorState :=
  { network := {⟨0, Message.finalVote 1 2⟩}
    finalized_blocks := fun k => if k = 0 then some 0 else none
    node_states := [cexNode, default, default]
    current_slot := 1 }

/-- The three-validator votor model. -/
def cexModel : VotorModel := ⟨3, 3⟩

/-- The successor of cexState after delivering the FinalVote. -/
def cexState2 : VotorState :=
  (next cexModel cexState (Action.deliver ⟨0, Message.finalVote 1 2⟩)).getD cexState

end Votor

namespace TO

/-- BlockProposal dispatch of the timeout model: the recipient casts and
broadcasts a NotarVote exactly when its votes_cast map has no entry for the
slot, of whatever value. -/
theorem timeout_blockProposal_cast_iff {m : TimeoutModel} {s s2 : TimeoutState}
    {d slot hash proposer : Nat}
    (hn : next m s (TimeoutAction.deliverMessage
      ⟨d, TimeoutMessage.blockProposal slot hash proposer⟩) = some s2)
    (hdlen : d < s.validators.length) :
    ((s.vAt d).votes_cast slot = none →
      (s2.vAt d).votes_cast slot = some (some hash) ∧
      s2.network = broadcast m.validator_count (TimeoutMessage.notarVote slot hash d)
        (s.network.erase ⟨d, TimeoutMessage.blockProposal slot hash proposer⟩)) ∧
    (∀ pv, (s.vAt d).votes_cast slot = some pv →
      s2.validators = s.validators ∧
      s2.network = s.network.erase ⟨d, TimeoutMessage.blockProposal slot hash proposer⟩) := by
  simp only [next] at hn
  split at hn
  case isFalse => exact absurd hn (by simp)
  case isTrue hmem =>
    split at hn
    case isTrue hvn =>
      have hvn2 : (s.vAt d).votes_cast slot = none := hvn
      injection hn with h2
      subst h2
      constructor
      · intro _
        refine ⟨?_, rfl⟩
        show (TimeoutState.vAt _ d).votes_cast slot = _
        unfold TimeoutState.vAt
        rw [ModelUtil.getD_set_general, if_pos ⟨rfl, hdlen⟩]
        exact if_pos rfl
      · intro pv hp
        rw [hvn2] at hp
        exact absurd hp (by simp)
    case isFalse hvn =>
      have hvn2 : ¬ (s.vAt d).votes_cast slot = none := hvn
      injection hn with h2
      subst h2
      constructor
      · intro h0
        exact absurd h0 hvn2
      · intro pv hp
        exact ⟨rfl, rfl⟩

end TO

namespace ModelUtil

/-- Applying an if-then-else of functions under a true condition. -/
theorem app_if_pos {α β : Type} {c : Prop} [Decidable c] (h : c) (f g : α → β) (x : α) :
    (if c then f else g) x = f x := by rw [if_pos h]

/-- Binding an if-then-else of options under a true condition. -/
theorem bind_if_pos {α β : Type} {c : Prop} [Decidable c] (h : c) (a b : Option α)
    (f : α → Option β) :
    (if c then a else b).bind f = a.bind f := by rw [if_pos h]

end ModelUtil

namespace Votor

/-- The voter set after pooling a NotarVote at recipient d. -/
def pooled_voters (s : VotorState) (d slot hash voter : Nat) : Finset Nat :=
  insert voter (((((s.nAt d).vote_pool slot).getD (fun _ => none)) hash).getD ∅)

/-- The or_default view of the recipient's slot-state entry. -/
def old_ss (s : VotorState) (d slot : Nat) : SlotState :=
  ((s.nAt d).slot_states slot).getD default

/-- NotarVote dispatch of the votor model: the vote is pooled; reaching the
fast threshold finalizes the block; reaching the notarization threshold on a
not-yet-notarized slot notarizes it; the FinalVote broadcast additionally
requires the TRYFINAL preconditions voted_notar = hash and a clear
bad_window. -/
theorem notarVote_cases {m : VotorModel} {s s2 : VotorState} {d slot hash voter : Nat}
    (hn : next m s (Action.deliver ⟨d, Message.notarVote slot hash voter⟩) = some s2)
    (hdlen : d < s.node_states.length) :
    ((s2.nAt d).vote_pool slot) = some (fun hk => if hk = hash then some (pooled_voters s d slot hash voter) else (((s.nAt d).vote_pool slot).getD (fun _ => none)) hk) ∧
    (FAST_FINALIZE_THRESHOLD ≤ (pooled_voters s d slot hash voter).card * STAKE_PER_VALIDATOR →
      s2.finalized_blocks slot = some hash) ∧
    (¬ FAST_FINALIZE_THRESHOLD ≤ (pooled_voters s d slot hash voter).card * STAKE_PER_VALIDATOR →
      s2.finalized_blocks = s.finalized_blocks) ∧
    (NOTARIZE_THRESHOLD ≤ (pooled_voters s d slot hash voter).card * STAKE_PER_VALIDATOR →
      (old_ss s d slot).block_notarized = none →
      ((s2.nAt d).slot_states slot).bind (fun ss => ss.block_notarized) = some hash) ∧
    (NOTARIZE_THRESHOLD ≤ (pooled_voters s d slot hash voter).card * STAKE_PER_VALIDATOR →
      (old_ss s d slot).block_notarized = none →
      (old_ss s d slot).voted_notar = some hash →
      (old_ss s d slot).bad_window = false →
      s2.network = broadcast m.honest_validators (Message.finalVote slot d)
        (s.network.erase ⟨d, Message.notarVote slot hash voter⟩)) := by
  simp only [next] at hn
  split at hn
  case isFalse => exact absurd hn (by simp)
  case isTrue hmem =>
    split at hn
    case isTrue hth =>
      split at hn
      case isTrue hbn =>
        split at hn
        case isTrue hgate =>
          injection hn with h2
          subst h2
          refine ⟨?_, ?_, ?_, ?_, ?_⟩
          · show (VotorState.nAt _ d).vote_pool slot = _
            unfold VotorState.nAt
            rw [ModelUtil.getD_set_general, if_pos ⟨rfl, hdlen⟩]
            exact if_pos rfl
          · intro hfast
            exact (ModelUtil.app_if_pos hfast _ _ _).trans (if_pos rfl)
          · intro hfast
            exact if_neg hfast
          · intro _ _
            show ((VotorState.nAt _ d).slot_states slot).bind _ = some hash
            unfold VotorState.nAt
            rw [ModelUtil.getD_set_general, if_pos ⟨rfl, hdlen⟩]
            exact ModelUtil.bind_if_pos rfl _ _ _
          · intro _ _ _ _
            rfl
        case isFalse hgate =>
          have hgate2 : ¬((old_ss s d slot).voted_notar = some hash ∧
              (old_ss s d slot).bad_window = false) := hgate
          injection hn with h2
          subst h2
          refine ⟨?_, ?_, ?_, ?_, ?_⟩
          · show (VotorState.nAt _ d).vote_pool slot = _
            unfold VotorState.nAt
            rw [ModelUtil.getD_set_general, if_pos ⟨rfl, hdlen⟩]
            exact if_pos rfl
          · intro hfast
            exact (ModelUtil.app_if_pos hfast _ _ _).trans (if_pos rfl)
          · intro hfast
            exact if_neg hfast
          · intro _ _
            show ((VotorState.nAt _ d).slot_states slot).bind _ = some hash
            unfold VotorState.nAt
            rw [ModelUtil.getD_set_general, if_pos ⟨rfl, hdlen⟩]
            exact ModelUtil.bind_if_pos rfl _ _ _
          · intro _ _ hv hb
            exact absurd ⟨hv, hb⟩ hgate2
      case isFalse hbn =>
        have hbn2 : ¬ (old_ss s d slot).block_notarized = none := hbn
        injection hn with h2
        subst h2
        refine ⟨?_, ?_, ?_, ?_, ?_⟩
        · show (VotorState.nAt _ d).vote_pool slot = _
          unfold VotorState.nAt
          rw [ModelUtil.getD_set_general, if_pos ⟨rfl, hdlen⟩]
          exact if_pos rfl
        · intro hfast
          exact (ModelUtil.app_if_pos hfast _ _ _).trans (if_pos rfl)
        · intro hfast
          exact if_neg hfast
        · intro _ h0
          exact absurd h0 hbn2
        · intro _ h0 _ _
          exact absurd h0 hbn2
    case isFalse hth =>
      have hth2 : ¬ NOTARIZE_THRESHOLD ≤
          (pooled_voters s d slot hash voter).card * STAKE_PER_VALIDATOR := hth
      injection hn with h2
      subst h2
      refine ⟨?_, ?_, ?_, ?_, ?_⟩
      · show (VotorState.nAt _ d).vote_pool slot = _
        unfold VotorState.nAt
        rw [ModelUtil.getD_set_general, if_pos ⟨rfl, hdlen⟩]
        exact if_pos rfl
      · intro hfast
        exact absurd (le_trans (by decide) hfast) hth2
      · intro hfast
        exact if_neg hfast
      · intro h60 _
        exact absurd h60 hth2
      · intro h60 _ _ _
        exact absurd h60 hth2

end Votor

namespace Leader

/-- The three-validator leader model with five slots. -/
def lM : LeaderModel := ⟨3, 5⟩

/-- Its initial state. -/
def l0 : LeaderState := initState 3

/-- The stake-weighted leader of slot 1. -/
def lLeader : Nat := get_leader_for_slot l0 1

/-- State after selecting the leader of slot 1. -/
def l1 : LeaderState := (next lM l0 (LeaderAction.selectLeader 1 lLeader)).getD l0

/-- State after the slot-1 leader fails, broadcasting a skip certificate. -/
def l2 : LeaderState := (next lM l1 (LeaderAction.triggerLeaderFailure 1 lLeader)).getD l1

/-- State after validator 0 receives the skip certificate for slot 1. -/
def l3 : LeaderState := (next lM l2 (LeaderAction.deliverMessage ⟨0, LeaderMessage.skipCertificate 1 lLeader⟩)).getD l2

/-- State after the slot counter advances to 1. -/
def l4 : LeaderState := (next lM l3 LeaderAction.advanceSlot).getD l3

theorem l1_gen : Gen lM l0 (LeaderAction.selectLeader 1 lLeader) :=
  ⟨by decide, by decide, by decide, rfl⟩

theorem l1_next : next lM l0 (LeaderAction.selectLeader 1 lLeader) = some l1 :=
  ModelUtil.eq_some_getD l0 (by decide)

theorem l2_gen : Gen lM l1 (LeaderAction.triggerLeaderFailure 1 lLeader) :=
  ⟨by decide, by decide, by decide⟩

theorem l2_next : next lM l1 (LeaderAction.triggerLeaderFailure 1 lLeader) = some l2 :=
  ModelUtil.eq_some_getD l1 (by decide)

theorem l3_gen : Gen lM l2 (LeaderAction.deliverMessage ⟨0, LeaderMessage.skipCertificate 1 lLeader⟩) := by
  show (⟨0, LeaderMessage.skipCertificate 1 lLeader⟩ : MessageInTransit) ∈ l2.network
  decide

theorem l3_next : next lM l2 (LeaderAction.deliverMessage ⟨0, LeaderMessage.skipCertificate 1 lLeader⟩) = some l3 :=
  ModelUtil.eq_some_getD l2 (by decide)

theorem l4_gen : Gen lM l3 LeaderAction.advanceSlot := by
  show l3.current_slot < lM.max_slot
  decide

theorem l4_next : next lM l3 LeaderAction.advanceSlot = some l4 :=
  ModelUtil.eq_some_getD l3 (by decide)

/-- The state after the advance is reachable. -/
theorem l4_reach : Reach lM l4 :=
  Reach.step
    (Reach.step
      (Reach.step
        (Reach.step Reach.init l1_gen l1_next)
        l2_gen l2_next)
      l3_gen l3_next)
    l4_gen l4_next

end Leader

namespace Cert

/-- The summed stake recorded behind the validator-0 pool entry; 0 with no
entry. -/
def recorded_stake (s : CertificateState) (slot : Nat) (hash : Option Nat) : Nat :=
  match (s.vAt 0).vote_pool (slot, hash) with
  | some voters => get_stake_for_voters s voters
  | none => 0

/-- can_form_certificate holds exactly when the recorded stake meets the floor
threshold. -/
theorem can_form_iff (s : CertificateState) (slot : Nat) (hash : Option Nat) :
    can_form_certificate s slot hash = true ↔
      TOTAL_STAKE * NOTARIZE_THRESHOLD_PERCENT / 100 ≤ recorded_stake s slot hash := by
  unfold can_form_certificate recorded_stake
  cases (s.vAt 0).vote_pool (slot, hash) with
  | none =>
      constructor
      · intro h
        exact absurd h (by simp)
      · intro h
        simp [TOTAL_STAKE, NOTARIZE_THRESHOLD_PERCENT] at h
  | some voters => simp

/-- A single validator of stake exactly the threshold, with a recorded vote for
slot 1, hash 5. -/
def certBoundaryHit : CertificateState :=
  { network := ∅
    validators := [{ votes_cast := {(1, some 5)}, vote_pool := fun k => if k = (1, some 5) then some {0} else none, certificates := fun _ => false, is_adversary := false, stake := 600 }]
    global_certificates := fun _ => none
    stake_distribution := fun i => if i = 0 then some 600 else none }

/-- The same state with the stake one unit below the threshold. -/
def certBoundaryMiss : CertificateState :=
  { network := ∅
    validators := [{ votes_cast := {(1, some 5)}, vote_pool := fun k => if k = (1, some 5) then some {0} else none, certificates := fun _ => false, is_adversary := false, stake := 599 }]
    global_certificates := fun _ => none
    stake_distribution := fun i => if i = 0 then some 599 else none }

/-- Two certificate states differing only in the private vote pool of
validator 1. -/
def c10a : CertificateState := initState 2 0

def c10b : CertificateState :=
  { c10a with validators := c10a.validators.set 1 { c10a.vAt 1 with vote_pool := fun k => if k = (1, some 7) then some {0, 1} else none } }

end Cert

namespace Safety

/-- can_certify reads only the validator-0 pool entry, the stake distribution
and the per-validator Byzantine and responsiveness flags. -/
theorem can_certify_eq {s t : SafetyState} {slot hash : Nat}
    (hp : (s.vAt 0).vote_pool (slot, hash) = (t.vAt 0).vote_pool (slot, hash))
    (hst : s.stake_distribution = t.stake_distribution)
    (hb : ∀ v, (s.vAt v).is_byzantine = (t.vAt v).is_byzantine)
    (hr : ∀ v, (s.vAt v).is_responsive = (t.vAt v).is_responsive) :
    can_certify s slot hash = can_certify t slot hash := by
  unfold can_certify honest_stake
  rw [hp, hst]
  cases (t.vAt 0).vote_pool (slot, hash) with
  | none => rfl
  | some voters => simp only [hb, hr]

/-- Two safety states differing only in the private vote pool of validator 1. -/
def s10a : SafetyState := initState 2 0

def s10b : SafetyState :=
  { s10a with validators := s10a.validators.set 1 { s10a.vAt 1 with vote_pool := fun k => if k = (1, 7) then some {0, 1} else none } }

/-- The pool update of s10b leaves every Byzantine flag unchanged. -/
theorem s10_flags_byz : ∀ v, (s10a.vAt v).is_byzantine = (s10b.vAt v).is_byzantine := by
  intro v
  unfold s10b SafetyState.vAt
  rw [ModelUtil.getD_set_general]
  by_cases hv : v = 1 ∧ 1 < s10a.validators.length
  · rw [if_pos hv]
    obtain ⟨rfl, -⟩ := hv
    rfl
  · rw [if_neg hv]

/-- The pool update of s10b leaves every responsiveness flag unchanged. -/
theorem s10_flags_resp : ∀ v, (s10a.vAt v).is_responsive = (s10b.vAt v).is_responsive := by
  intro v
  unfold s10b SafetyState.vAt
  rw [ModelUtil.getD_set_general]
  by_cases hv : v = 1 ∧ 1 < s10a.validators.length
  · rw [if_pos hv]
    obtain ⟨rfl, -⟩ := hv
    rfl
  · rw [if_neg hv]

end Safety

namespace TO

/-- can_form_skip_certificate reads only the validator-0 skip pool entry and
the validator count. -/
theorem can_form_skip_eq {s t : TimeoutState} {slot : Nat}
    (hp : (s.vAt 0).vote_pool (slot, none) = (t.vAt 0).vote_pool (slot, none))
    (hlen : s.validators.length = t.validators.length) :
    can_form_skip_certificate s slot = can_form_skip_certificate t slot := by
  unfold can_form_skip_certificate
  rw [hp, hlen]

/-- Two timeout states differing only in the private vote pool of validator 1. -/
def t10a : TimeoutState := initState 2

def t10b : TimeoutState :=
  { t10a with validators := t10a.validators.set 1 { t10a.vAt 1 with vote_pool := fun k => if k = (1, none) then some {0, 1} else none } }

end TO

namespace Live

/-- A liveness state about to deliver NotarVote(slot 1, hash 5, voter 1) to
validator 0. -/
def l4State : LivenessState :=
  { initState 4 3 with network := {⟨0, LivenessMessage.notarVote 1 5 1⟩} }

/-- Its successor after the delivery. -/
def l4State2 : LivenessState :=
  (next ⟨4, 3, 3⟩ l4State (LivenessAction.deliverMessage ⟨0, LivenessMessage.notarVote 1 5 1⟩)).getD l4State

/-- A liveness state about to deliver FinalVote(slot 1, voter 1) to
validator 0. -/
def l5State : LivenessState :=
  { initState 4 3 with network := {⟨0, LivenessMessage.finalVote 1 1⟩} }

/-- Its successor after the delivery. -/
def l5State2 : LivenessState :=
  (next ⟨4, 3, 3⟩ l5State (LivenessAction.deliverMessage ⟨0, LivenessMessage.finalVote 1 1⟩)).getD l5State

end Live

namespace Votor

/-- A votor state about to deliver NotarVote(slot 1, hash 1, voter 2) to
node 0. -/
def v4State : VotorState :=
  { initState 3 with network := {⟨0, Message.notarVote 1 1 2⟩} }

/-- Its successor after the delivery. -/
def v4State2 : VotorState :=
  (next cexModel v4State (Action.deliver ⟨0, Message.notarVote 1 1 2⟩)).getD v4State

end Votor

namespace TO

/-- A timeout state about to deliver BlockProposal(slot 1, hash 5,
proposer 1) to validator 0. -/
def t7State : TimeoutState :=
  { initState 2 with network := {⟨0, TimeoutMessage.blockProposal 1 5 1⟩} }

/-- Its successor after the delivery. -/
def t7State2 : TimeoutState :=
  (next ⟨2, 3⟩ t7State (TimeoutAction.deliverMessage ⟨0, TimeoutMessage.blockProposal 1 5 1⟩)).getD t7State

end TO

namespace Cert

/-- The state after honest validator 1 casts a notarization vote in slot 1. -/
def certVoteState : CertificateState :=
  (next certModel4 certInit4 (CertificateAction.castNotarVote 1 2 1)).getD certInit4

/-- The vote action is generated in the initial state. -/
theorem certVote_gen : Gen certModel4 certInit4 (CertificateAction.castNotarVote 1 2 1) :=
  ⟨by decide, by decide, by decide, by decide, by decide, by decide⟩

/-- The vote step succeeds. -/
theorem certVote_next :
    next certModel4 certInit4 (CertificateAction.castNotarVote 1 2 1) = some certVoteState :=
  ModelUtil.eq_some_getD certInit4 (by decide)

/-- The post-vote state is reachable. -/
theorem certVoteState_reach : Reach certModel4 certVoteState :=
  Reach.step Reach.init certVote_gen certVote_next

end Cert

namespace Live

/-- The liveness model used for the reachability witnesses. -/
def lModel : LivenessModel := ⟨4, 5, 3⟩

/-- The state after proposing a block for slot 1. -/
def lP1 : LivenessState :=
  (next lModel (initState 4 3) (LivenessAction.proposeBlock 1 0)).getD (initState 4 3)

/-- The proposal is generated in the initial state. -/
theorem lP1_gen : Gen lModel (initState 4 3) (LivenessAction.proposeBlock 1 0) :=
  ⟨by decide, by decide, by decide, by decide⟩

/-- The proposal step succeeds. -/
theorem lP1_next :
    next lModel (initState 4 3) (LivenessAction.proposeBlock 1 0) = some lP1 :=
  ModelUtil.eq_some_getD (initState 4 3) (by decide)

/-- The post-proposal state is reachable. -/
theorem lP1_reach : Reach lModel lP1 :=
  Reach.step Reach.init lP1_gen lP1_next

end Live

section Claims

/-- C1: certificate uniqueness. In every reachable state of the certificate
model with adversary stake below the certification threshold, the global
certificate ledger certifies at most one hash (or skip marker) per slot; in
every reachable state of the safety model the slot-keyed global certificate
ledger likewise holds at most one hash per slot. -/
theorem C1_certificate_uniqueness :
    (∀ (m : Cert.CertificateModel) (s : Cert.CertificateState), Cert.Reach m s →
      m.adversary_count * (Cert.TOTAL_STAKE / m.validator_count) <
        Cert.TOTAL_STAKE * Cert.NOTARIZE_THRESHOLD_PERCENT / 100 →
      ∀ slot h1 h2, (s.global_certificates (slot, h1)).isSome = true →
        (s.global_certificates (slot, h2)).isSome = true → h1 = h2) ∧
    (∀ (m : Safety.SafetyModel) (s : Safety.SafetyState), Safety.Reach m s →
      ∀ slot h1 h2, s.global_certificates slot = some h1 →
        s.global_certificates slot = some h2 → h1 = h2) := by
  constructor
  · intro m s hR hadv
    exact Cert.cert_uniqueness_of_inv (Cert.reach_inv hR) hadv
  · intro m s _ slot h1 h2 hg1 hg2
    rw [hg1] at hg2
    exact Option.some.inj hg2

/-- Witness for C1 at the shipped four-validator configurations. -/
theorem C1_certificate_uniqueness_witness :
    (∀ slot h1 h2, (Cert.certEquivState.global_certificates (slot, h1)).isSome = true →
      (Cert.certEquivState.global_certificates (slot, h2)).isSome = true → h1 = h2) ∧
    (∀ slot h1 h2, Safety.sInit.global_certificates slot = some h1 →
      Safety.sInit.global_certificates slot = some h2 → h1 = h2) :=
  ⟨C1_certificate_uniqueness.1 Cert.certModel4 Cert.certEquivState
      Cert.certEquivState_reach (by decide),
   C1_certificate_uniqueness.2 Safety.safetyModel4 Safety.sInit Safety.Reach.init⟩

/-- C2 (amended): vote uniqueness holds for the honest validators — in every
reachable state of the certificate model a non-adversary validator has at most
one vote per slot; the AdversaryEquivocate action breaks it for adversaries. -/
theorem C2_vote_uniqueness_honest :
    ∀ (m : Cert.CertificateModel) (s : Cert.CertificateState), Cert.Reach m s →
      ∀ v, (s.vAt v).is_adversary = false →
        ∀ slot h1 h2, (slot, h1) ∈ (s.vAt v).votes_cast →
          (slot, h2) ∈ (s.vAt v).votes_cast → h1 = h2 :=
  fun _ _ hR => Cert.honest_vote_unique_of_inv (Cert.reach_inv hR)

/-- Witness for C2 at the honest validator 1 of a reachable post-vote state. -/
theorem C2_vote_uniqueness_honest_witness :
    (Cert.certVoteState.vAt 1).is_adversary = false ∧
    (1, some 2) ∈ (Cert.certVoteState.vAt 1).votes_cast ∧
    (some 2 : Option Nat) = some 2 :=
  ⟨by decide, by decide,
   C2_vote_uniqueness_honest Cert.certModel4 Cert.certVoteState Cert.certVoteState_reach 1
     (by decide) 1 (some 2) (some 2) (by decide) (by decide)⟩

/-- Counterexample to C2 as stated: after one reachable AdversaryEquivocate
step the adversary validator 0 holds two distinct votes for slot 1. -/
theorem C2_vote_uniqueness_counterexample :
    Cert.Reach Cert.certModel4 Cert.certEquivState ∧
    (1, some 1001) ∈ (Cert.certEquivState.vAt 0).votes_cast ∧
    (1, some 1002) ∈ (Cert.certEquivState.vAt 0).votes_cast ∧
    (some 1001 : Option Nat) ≠ some 1002 :=
  ⟨Cert.certEquivState_reach, by decide, by decide, by decide⟩

/-- C3 (amended): can_form_certificate accepts exactly at recorded stake at
least floor(TotalStake*60/100), accepting at the boundary and rejecting one
stake unit below; can_notarize applies the same floor threshold to the
responsiveness-filtered recorded stake rather than the raw recorded stake. -/
theorem C3_quorum_boundary :
    (∀ (s : Cert.CertificateState) (slot : Nat) (hash : Option Nat),
      Cert.can_form_certificate s slot hash = true ↔
        Cert.TOTAL_STAKE * Cert.NOTARIZE_THRESHOLD_PERCENT / 100 ≤
          Cert.recorded_stake s slot hash) ∧
    Cert.recorded_stake Cert.certBoundaryHit 1 (some 5) =
      Cert.TOTAL_STAKE * Cert.NOTARIZE_THRESHOLD_PERCENT / 100 ∧
    Cert.can_form_certificate Cert.certBoundaryHit 1 (some 5) = true ∧
    Cert.recorded_stake Cert.certBoundaryMiss 1 (some 5) + 1 =
      Cert.TOTAL_STAKE * Cert.NOTARIZE_THRESHOLD_PERCENT / 100 ∧
    Cert.can_form_certificate Cert.certBoundaryMiss 1 (some 5) = false ∧
    (∀ (s : Live.LivenessState) (slot hash : Nat),
      Live.can_notarize s slot hash = true ↔
        Live.TOTAL_STAKE * Live.SLOW_PATH_THRESHOLD_PERCENT / 100 ≤
          Live.responsive_recorded_stake s slot hash) :=
  ⟨Cert.can_form_iff, by decide, by decide, by decide, by decide, Live.can_notarize_iff⟩

/-- Counterexample to the unfiltered reading of C3 for can_notarize: the
recorded stake 750 meets the 600 threshold, yet can_notarize rejects because
only 500 of it belongs to responsive validators. -/
theorem C3_quorum_boundary_counterexample :
    Live.TOTAL_STAKE * Live.SLOW_PATH_THRESHOLD_PERCENT / 100 ≤
      Live.spec_recorded_stake Live.c3State 1 100 ∧
    Live.can_notarize Live.c3State 1 100 = false :=
  ⟨by decide, by decide⟩

end Claims

section Claims2

/-- C4: NotarVote dispatch. In the liveness model the delivered vote is pooled
at the recipient; reaching the responsiveness-filtered 60 percent threshold
notarizes the slot and then either the 80 percent fast path finalizes with
time 1, or a FinalVote is broadcast to the responsive validators with no time
recorded. In the votor model the vote is pooled, the fast threshold finalizes
the block, and the notarization threshold notarizes a not-yet-notarized slot. -/
theorem C4_notarvote_dispatch :
    (∀ (m : Live.LivenessModel) (s s2 : Live.LivenessState) (d slot hash voter : Nat),
      Live.next m s (Live.LivenessAction.deliverMessage
        ⟨d, Live.LivenessMessage.notarVote slot hash voter⟩) = some s2 →
      d < s.validators.length →
      (s2.vAt d).vote_pool (slot, some hash) =
        some (insert voter (((s.vAt d).vote_pool (slot, some hash)).getD ∅)) ∧
      (Live.can_notarize s slot hash = true →
        (s2.vAt d).notarized_slots slot = some hash ∧
        (Live.can_fast_finalize s slot hash = true →
          (s2.vAt d).finalized_slots slot = some hash ∧
          s2.finalization_times slot = some 1 ∧
          s2.network = s.network.erase ⟨d, Live.LivenessMessage.notarVote slot hash voter⟩) ∧
        (Live.can_fast_finalize s slot hash = false →
          s2.finalization_times = s.finalization_times ∧
          (s2.vAt d).finalized_slots = (s.vAt d).finalized_slots ∧
          s2.network = Live.finalvote_broadcast s m.validator_count slot
            (s.network.erase ⟨d, Live.LivenessMessage.notarVote slot hash voter⟩))) ∧
      (Live.can_notarize s slot hash = false →
        (s2.vAt d).notarized_slots = (s.vAt d).notarized_slots ∧
        s2.finalization_times = s.finalization_times ∧
        s2.network = s.network.erase ⟨d, Live.LivenessMessage.notarVote slot hash voter⟩)) ∧
    (∀ (m : Votor.VotorModel) (s s2 : Votor.VotorState) (d slot hash voter : Nat),
      Votor.next m s (Votor.Action.deliver
        ⟨d, Votor.Message.notarVote slot hash voter⟩) = some s2 →
      d < s.node_states.length →
      ((s2.nAt d).vote_pool slot) = some (fun hk => if hk = hash then some (Votor.pooled_voters s d slot hash voter) else (((s.nAt d).vote_pool slot).getD (fun _ => none)) hk) ∧
      (Votor.FAST_FINALIZE_THRESHOLD ≤
          (Votor.pooled_voters s d slot hash voter).card * Votor.STAKE_PER_VALIDATOR →
        s2.finalized_blocks slot = some hash) ∧
      (Votor.NOTARIZE_THRESHOLD ≤
          (Votor.pooled_voters s d slot hash voter).card * Votor.STAKE_PER_VALIDATOR →
        (Votor.old_ss s d slot).block_notarized = none →
        ((s2.nAt d).slot_states slot).bind (fun ss => ss.block_notarized) = some hash)) :=
  ⟨fun _ _ _ _ _ _ _ hn hdlen => Live.notarVote_dispatch hn hdlen,
   fun _ _ _ _ _ _ _ hn hdlen =>
     ⟨(Votor.notarVote_cases hn hdlen).1,
      (Votor.notarVote_cases hn hdlen).2.1,
      (Votor.notarVote_cases hn hdlen).2.2.2.1⟩⟩

/-- Witness for C4: the pooled-vote equations at a concrete delivery in each
model. -/
theorem C4_notarvote_dispatch_witness :
    (Live.l4State2.vAt 0).vote_pool (1, some 5) =
      some (insert 1 (((Live.l4State.vAt 0).vote_pool (1, some 5)).getD ∅)) ∧
    (Votor.v4State2.nAt 0).vote_pool 1 = some (fun hk => if hk = 1 then some (Votor.pooled_voters Votor.v4State 0 1 1 2) else (((Votor.v4State.nAt 0).vote_pool 1).getD (fun _ => none)) hk) :=
  ⟨(C4_notarvote_dispatch.1 ⟨4, 3, 3⟩ Live.l4State Live.l4State2 0 1 5 1
      (ModelUtil.eq_some_getD Live.l4State (by decide)) (by decide)).1,
   (C4_notarvote_dispatch.2 Votor.cexModel Votor.v4State Votor.v4State2 0 1 1 2
      (ModelUtil.eq_some_getD Votor.v4State (by decide)) (by decide)).1⟩

end Claims2

section Claims3

/-- C5 (amended): FinalVote gating. In the votor model a FinalVote delivery
that meets the 60 percent tally finalizes exactly when the recipient has the
slot notarized; the recipient's bad_window flag is not consulted at delivery
(it only gates the casting of FinalVotes in the NotarVote arm). In the
liveness model the tally meeting the slow threshold finalizes with time 2
exactly when the recipient has the slot notarized. -/
theorem C5_finalvote_gating :
    (∀ (m : Votor.VotorModel) (s s2 : Votor.VotorState) (d slot voter : Nat),
      Votor.next m s (Votor.Action.deliver
        ⟨d, Votor.Message.finalVote slot voter⟩) = some s2 →
      d < s.node_states.length →
      (s2.nAt d).final_vote_pool slot =
        some (insert voter (((s.nAt d).final_vote_pool slot).getD ∅)) ∧
      (∀ hash, Votor.SLOW_FINALIZE_THRESHOLD ≤
          (insert voter (((s.nAt d).final_vote_pool slot).getD ∅)).card * Votor.STAKE_PER_VALIDATOR →
        ((s.nAt d).slot_states slot).bind (fun ss => ss.block_notarized) = some hash →
        s2.finalized_blocks slot = some hash) ∧
      (¬ Votor.SLOW_FINALIZE_THRESHOLD ≤
          (insert voter (((s.nAt d).final_vote_pool slot).getD ∅)).card * Votor.STAKE_PER_VALIDATOR →
        s2.finalized_blocks = s.finalized_blocks) ∧
      (((s.nAt d).slot_states slot).bind (fun ss => ss.block_notarized) = none →
        s2.finalized_blocks = s.finalized_blocks)) ∧
    (∀ (m : Live.LivenessModel) (s s2 : Live.LivenessState) (d slot voter : Nat),
      Live.next m s (Live.LivenessAction.deliverMessage
        ⟨d, Live.LivenessMessage.finalVote slot voter⟩) = some s2 →
      d < s.validators.length →
      (s.vAt voter).is_responsive = true →
      (slot, (none : Option Nat)) ∈ (s2.vAt d).votes_cast ∧
      (∀ hash, Live.can_slow_finalize s slot = true →
        (s.vAt d).notarized_slots slot = some hash →
        (s2.vAt d).finalized_slots slot = some hash ∧
        s2.finalization_times slot = some 2) ∧
      (Live.can_slow_finalize s slot = false →
        s2.finalization_times = s.finalization_times) ∧
      ((s.vAt d).notarized_slots slot = none →
        s2.finalization_times = s.finalization_times)) :=
  ⟨fun _ _ _ _ _ _ hn hdlen => Votor.finalVote_cases hn hdlen,
   fun _ _ _ _ _ _ hn hdlen hresp => Live.finalVote_dispatch hn hdlen hresp⟩

/-- Witness for C5: the pooled-tally equation and vote record at a concrete
delivery in each model. -/
theorem C5_finalvote_gating_witness :
    (Votor.cexState2.nAt 0).final_vote_pool 1 =
      some (insert 2 (((Votor.cexState.nAt 0).final_vote_pool 1).getD ∅)) ∧
    (1, (none : Option Nat)) ∈ (Live.l5State2.vAt 0).votes_cast :=
  ⟨(C5_finalvote_gating.1 Votor.cexModel Votor.cexState Votor.cexState2 0 1 2
      (ModelUtil.eq_some_getD Votor.cexState (by decide)) (by decide)).1,
   (C5_finalvote_gating.2 ⟨4, 3, 3⟩ Live.l5State Live.l5State2 0 1 1
      (ModelUtil.eq_some_getD Live.l5State (by decide)) (by decide) (by decide)).1⟩

/-- Counterexample to C5 as stated: in a state whose recipient has bad_window
set for slot 1, delivering the tally-completing FinalVote still finalizes the
slot. -/
theorem C5_finalvote_gating_counterexample :
    (((Votor.cexState.nAt 0).slot_states 1).getD default).bad_window = true ∧
    Votor.next Votor.cexModel Votor.cexState
      (Votor.Action.deliver ⟨0, Votor.Message.finalVote 1 2⟩) = some Votor.cexState2 ∧
    Votor.cexState.finalized_blocks 1 = none ∧
    Votor.cexState2.finalized_blocks 1 = some 1 :=
  ⟨by decide, ModelUtil.eq_some_getD Votor.cexState (by decide), by decide, by decide⟩

/-- C6 (amended): the transition functions of the safety and votor models have
no successor exactly for delivery of an envelope that is not in the network;
proposing over an existing proposal still has a successor. -/
theorem C6_stale_actions :
    (∀ (m : Safety.SafetyModel) (s : Safety.SafetyState) (a : Safety.SafetyAction),
      Safety.next m s a = none ↔
        ∃ e, a = Safety.SafetyAction.deliverMessage e ∧ e ∉ s.network) ∧
    (∀ (m : Votor.VotorModel) (s : Votor.VotorState) (a : Votor.Action),
      Votor.next m s a = none ↔
        ∃ e, a = Votor.Action.deliver e ∧ e ∉ s.network) :=
  ⟨Safety.next_none_iff, Votor.votor_next_none_iff⟩

/-- Counterexample to C6 as stated: re-proposing slot 1 over its recorded
proposal succeeds, and the conflicting-vote envelope is delivered twice along
a reachable path, being re-created in between. -/
theorem C6_stale_actions_counterexample :
    Safety.Reach Safety.safetyModel4 Safety.sP1 ∧
    Safety.sP1.block_proposals 1 = some 1000 ∧
    (Safety.next Safety.safetyModel4 Safety.sP1
      (Safety.SafetyAction.proposeBlock 1 0)).isSome = true ∧
    Safety.next Safety.safetyModel4 Safety.sC1
      (Safety.SafetyAction.deliverMessage Safety.cEnv) = some Safety.sC2 ∧
    Safety.next Safety.safetyModel4 Safety.sC3
      (Safety.SafetyAction.deliverMessage Safety.cEnv) = some Safety.sC4 ∧
    Safety.Reach Safety.safetyModel4 Safety.sC4 :=
  ⟨Safety.sP1_reach, by decide, by decide, Safety.sC2_next, Safety.sC4_next, Safety.sC4_reach⟩

end Claims3

section Claims4

/-- C7: one vote per slot on block receipt. In every reachable safety-model
state a responsive recipient of a BlockProposal casts and broadcasts a
NotarVote exactly when it has no recorded vote for the slot; in the timeout
model the recipient casts exactly when its votes_cast map has no entry for the
slot, of whatever value. -/
theorem C7_one_vote_per_slot :
    (∀ (m : Safety.SafetyModel) (s : Safety.SafetyState), Safety.Reach m s →
      ∀ d slot hash proposer,
        (⟨d, Safety.SafetyMessage.blockProposal slot hash proposer⟩ :
          Safety.MessageInTransit) ∈ s.network →
        d < s.validators.length →
        (s.vAt d).is_responsive = true →
        ∃ s2, Safety.next m s (Safety.SafetyAction.deliverMessage
            ⟨d, Safety.SafetyMessage.blockProposal slot hash proposer⟩) = some s2 ∧
          ((∀ h, (slot, h) ∉ (s.vAt d).votes_cast) →
            (s2.vAt d).votes_cast = insert (slot, hash) (s.vAt d).votes_cast ∧
            s2.network = Safety.broadcast m.validator_count
              (Safety.SafetyMessage.vote slot hash d)
              (s.network.erase ⟨d, Safety.SafetyMessage.blockProposal slot hash proposer⟩)) ∧
          ((∃ h, (slot, h) ∈ (s.vAt d).votes_cast) →
            (s2.vAt d).votes_cast = (s.vAt d).votes_cast ∧
            s2.network = s.network.erase
              ⟨d, Safety.SafetyMessage.blockProposal slot hash proposer⟩)) ∧
    (∀ (m : TO.TimeoutModel) (s s2 : TO.TimeoutState) (d slot hash proposer : Nat),
      TO.next m s (TO.TimeoutAction.deliverMessage
        ⟨d, TO.TimeoutMessage.blockProposal slot hash proposer⟩) = some s2 →
      d < s.validators.length →
      ((s.vAt d).votes_cast slot = none →
        (s2.vAt d).votes_cast slot = some (some hash) ∧
        s2.network = TO.broadcast m.validator_count
          (TO.TimeoutMessage.notarVote slot hash d)
          (s.network.erase ⟨d, TO.TimeoutMessage.blockProposal slot hash proposer⟩)) ∧
      (∀ pv, (s.vAt d).votes_cast slot = some pv →
        s2.validators = s.validators ∧
        s2.network = s.network.erase
          ⟨d, TO.TimeoutMessage.blockProposal slot hash proposer⟩)) :=
  ⟨fun _ _ hR _ _ _ _ he hdlen hresp => Safety.blockProposal_cast_iff hR he hdlen hresp,
   fun _ _ _ _ _ _ _ hn hdlen => TO.timeout_blockProposal_cast_iff hn hdlen⟩

/-- Witness for C7 at a concrete proposal delivery in each model. -/
theorem C7_one_vote_per_slot_witness :
    (∃ s2, Safety.next Safety.safetyModel4 Safety.sP1 (Safety.SafetyAction.deliverMessage
        ⟨1, Safety.SafetyMessage.blockProposal 1 1000 0⟩) = some s2 ∧
      ((∀ h, (1, h) ∉ (Safety.sP1.vAt 1).votes_cast) →
        (s2.vAt 1).votes_cast = insert (1, 1000) (Safety.sP1.vAt 1).votes_cast ∧
        s2.network = Safety.broadcast 4 (Safety.SafetyMessage.vote 1 1000 1)
          (Safety.sP1.network.erase ⟨1, Safety.SafetyMessage.blockProposal 1 1000 0⟩)) ∧
      ((∃ h, (1, h) ∈ (Safety.sP1.vAt 1).votes_cast) →
        (s2.vAt 1).votes_cast = (Safety.sP1.vAt 1).votes_cast ∧
        s2.network = Safety.sP1.network.erase
          ⟨1, Safety.SafetyMessage.blockProposal 1 1000 0⟩)) ∧
    ((TO.t7State2.vAt 0).votes_cast 1 = some (some 5) ∧
      TO.t7State2.network = TO.broadcast 2 (TO.TimeoutMessage.notarVote 1 5 0)
        (TO.t7State.network.erase ⟨0, TO.TimeoutMessage.blockProposal 1 5 1⟩)) :=
  ⟨C7_one_vote_per_slot.1 Safety.safetyModel4 Safety.sP1 Safety.sP1_reach 1 1 1000 0
      (by decide) (by decide) (by decide),
   (C7_one_vote_per_slot.2 ⟨2, 3⟩ TO.t7State TO.t7State2 0 1 5 1
      (ModelUtil.eq_some_getD TO.t7State (by decide)) (by decide)).1 (by decide)⟩

/-- C8: bounded finalization time. In every reachable state of the liveness
model every recorded finalization time is 1 or 2. -/
theorem C8_bounded_finalization :
    ∀ (m : Live.LivenessModel) (s : Live.LivenessState), Live.Reach m s →
      ∀ slot t, s.finalization_times slot = some t → t = 1 ∨ t = 2 :=
  fun _ _ hR => Live.reach_bounded_times hR

/-- Witness for C8 at two reachable states of the shipped configuration. -/
theorem C8_bounded_finalization_witness :
    (∀ slot t, (Live.initState 4 3).finalization_times slot = some t → t = 1 ∨ t = 2) ∧
    (∀ slot t, Live.lP1.finalization_times slot = some t → t = 1 ∨ t = 2) :=
  ⟨C8_bounded_finalization Live.lModel (Live.initState 4 3) Live.Reach.init,
   C8_bounded_finalization Live.lModel Live.lP1 Live.lP1_reach⟩

/-- C9: evaluation of the leader model at the failing input. Along a
reachable path validator 0 receives a skip certificate for slot T = 1 and the
slot counter advances to 1, which lies in the window starting at T; the spec
requires bad_window to be true there, but the AdvanceSlot arm discards the
re-evaluated flags and the validator's bad_window stays false, even though
update_badwindow_flags applied to that very state would set it. -/
theorem C9_bad_window_sliding :
    Leader.Reach Leader.lM Leader.l4 ∧
    (1, Leader.lLeader) ∈ (Leader.l4.vAt 0).skip_certificates ∧
    Leader.l4.current_slot = 1 ∧
    Leader.is_within_window 1 Leader.l4.current_slot = true ∧
    (Leader.l4.vAt 0).bad_window = false ∧
    ((Leader.update_badwindow_flags Leader.l4).vAt 0).bad_window = true :=
  ⟨Leader.l4_reach, by decide, by decide, by decide, by decide, by decide⟩

/-- C10: certification decisions read only validator 0's view. Two states
agreeing on validator 0's relevant pool entry, the stake distribution and the
per-validator flags (respectively the validator count) yield the same
certification decision, whatever the other validators' pools hold. -/
theorem C10_validator0_view :
    (∀ (s t : Cert.CertificateState) (slot : Nat) (hash : Option Nat),
      (s.vAt 0).vote_pool (slot, hash) = (t.vAt 0).vote_pool (slot, hash) →
      s.stake_distribution = t.stake_distribution →
      Cert.can_form_certificate s slot hash = Cert.can_form_certificate t slot hash) ∧
    (∀ (s t : Safety.SafetyState) (slot hash : Nat),
      (s.vAt 0).vote_pool (slot, hash) = (t.vAt 0).vote_pool (slot, hash) →
      s.stake_distribution = t.stake_distribution →
      (∀ v, (s.vAt v).is_byzantine = (t.vAt v).is_byzantine) →
      (∀ v, (s.vAt v).is_responsive = (t.vAt v).is_responsive) →
      Safety.can_certify s slot hash = Safety.can_certify t slot hash) ∧
    (∀ (s t : TO.TimeoutState) (slot : Nat),
      (s.vAt 0).vote_pool (slot, none) = (t.vAt 0).vote_pool (slot, none) →
      s.validators.length = t.validators.length →
      TO.can_form_skip_certificate s slot = TO.can_form_skip_certificate t slot) :=
  ⟨fun _ _ _ _ hp hst => Cert.can_form_eq hp hst,
   fun _ _ _ _ hp hst hb hr => Safety.can_certify_eq hp hst hb hr,
   fun _ _ _ hp hlen => TO.can_form_skip_eq hp hlen⟩

/-- Witness for C10 at concrete state pairs differing only in validator 1's
private pool. -/
theorem C10_validator0_view_witness :
    Cert.can_form_certificate Cert.c10a 1 (some 7) =
      Cert.can_form_certificate Cert.c10b 1 (some 7) ∧
    Safety.can_certify Safety.s10a 1 7 = Safety.can_certify Safety.s10b 1 7 ∧
    TO.can_form_skip_certificate TO.t10a 1 = TO.can_form_skip_certificate TO.t10b 1 :=
  ⟨C10_validator0_view.1 Cert.c10a Cert.c10b 1 (some 7) (by decide) rfl,
   C10_validator0_view.2.1 Safety.s10a Safety.s10b 1 7 (by decide) rfl
     Safety.s10_flags_byz Safety.s10_flags_resp,
   C10_validator0_view.2.2 TO.t10a TO.t10b 1 (by decide) (by decide)⟩

end Claims4
